import Mathlib

/-!
# Verification of the ai-bench core (scheduler, persistence, combiner, progress store)

Shallow embedding of the repository's core:
* `persistence.ts` (src/unnamed/part_001): `sanitizeForFilename`, `saveRunResult`,
  `BenchmarkRunner.run` / `executeRun`;
* `src/index.ts`: the `RunResultSchema` zod schema (lines 905-921 of the file);
* `src/index.tsx` (combine-runs): `readRunFiles`, `computeTestSummary`,
  `computeModelSummary`, `combineModelRuns`, `combineRunDir`, `combineAllRuns`;
* `src/use-benchmark-store.ts`: the event handlers of `useBenchmarkStore`.

The remote model/judge calls are opaque collaborators; their outcomes are supplied
by an environment (`ItemEnv`).  The `p-limit` concurrency limiter is modelled as a
capacity-`K` semaphore guard on dispatch, which is its documented contract.
-/

/-- JSON values, as produced by `JSON.stringify` / consumed by `JSON.parse`.
Numbers are modelled as integers (all numeric fields of a `RunResult` are counts
or millisecond durations). -/
inductive Json where
  | null : Json
  | bool (b : Bool) : Json
  | num (n : Int) : Json
  | str (s : String) : Json
  | arr (elems : List Json) : Json
  | obj (fields : List (String × Json)) : Json

/-- Token usage statistics (`TokenUsage` in index.tsx / the first half of index.ts:
`{input, output, reasoning?, total}`). -/
structure TokenUsage where
  input : Nat
  output : Nat
  reasoning : Option Nat
  total : Nat
deriving Repr, DecidableEq

/-- Result of a single benchmark run, as constructed by `BenchmarkRunner` in
persistence.ts: `{testName, modelName, runIndex, timestamp, success, reason,
durationMs, tokenUsage, rawOutput, judgeOutput?}`.  `rawOutput` is an arbitrary
JSON value; `judgeOutput` is absent on the structured-output and error paths. -/
structure RunResult where
  testName : String
  modelName : String
  runIndex : Nat
  timestamp : String
  success : Bool
  reason : String
  durationMs : Nat
  tokenUsage : TokenUsage
  rawOutput : Json
  judgeOutput : Option Json

/-- The identity key of a work item: the (test, model, runIndex) triple. -/
structure ItemKey where
  testName : String
  modelName : String
  runIndex : Nat
deriving Repr, DecidableEq

/-- Key of a `RunResult`. -/
def RunResult.key (r : RunResult) : ItemKey :=
  ⟨r.testName, r.modelName, r.runIndex⟩

/-! ## Filename sanitization and the persisted-file path (persistence.ts 21-26, 38-47) -/

/-- One step of `str.replace(/[^a-zA-Z0-9-_]/g, "-")`: every character that is not
alphanumeric, `-` or `_` becomes `-`. -/
def keepOrDash (c : Char) : Char :=
  if c.isAlphanum || c = '-' || c = '_' then c else '-'

/-- The `.replace` with the global dash-run regex: collapse every run of
dashes to a single dash. -/
def collapseDashes : List Char → List Char
  | [] => []
  | '-' :: rest =>
    match collapseDashes rest with
    | '-' :: tail => '-' :: tail
    | tail => '-' :: tail
  | c :: rest => c :: collapseDashes rest

/-- `sanitizeForFilename` (persistence.ts lines 21-26): replace unsafe characters
with `-`, collapse repeated `-`, truncate to 100 characters. -/
def sanitizeForFilename (s : String) : String :=
  String.mk (((collapseDashes (s.data.map keepOrDash))).take 100)

/-- `result.timestamp.replace(/[:.]/g, "-")` (persistence.ts line 44). -/
def timestampReplace (s : String) : String :=
  String.mk (s.data.map fun c => if c = ':' || c = '.' then '-' else c)

/-- `path.join` of two segments. -/
def joinPath (a b : String) : String := a ++ "/" ++ b

/-- The final path computed by `saveRunResult` (persistence.ts lines 38-47):
`runDir / sanitize(modelName) / {timestamp}-{sanitize(testName)}-run{index}.json`. -/
def runResultFilePath (runDir : String) (r : RunResult) : String :=
  joinPath (joinPath runDir (sanitizeForFilename r.modelName))
    (timestampReplace r.timestamp ++ "-" ++ sanitizeForFilename r.testName ++
      "-run" ++ toString r.runIndex ++ ".json")

/-! ## JSON serialization of a RunResult (what `JSON.stringify(result, null, 2)` keys) -/

/-- Serialize a `TokenUsage`; `reasoning` is omitted when absent, exactly as
`JSON.stringify` omits `undefined` properties. -/
def tokenUsageToJson (t : TokenUsage) : Json :=
  .obj ([("input", .num t.input), ("output", .num t.output)] ++
    (match t.reasoning with
     | some n => [("reasoning", Json.num n)]
     | none => []) ++ [("total", .num t.total)])

/-- The JSON object `JSON.stringify` sees for a `RunResult` built by
`BenchmarkRunner` (persistence.ts): exactly the fields of the object literals at
lines 215-225, 268-279 and 384-394 — note there is no `type` and no `prompt`
property. `judgeOutput` is omitted when absent. -/
def runResultToJson (r : RunResult) : Json :=
  .obj ([("testName", .str r.testName), ("modelName", .str r.modelName),
    ("runIndex", .num r.runIndex), ("timestamp", .str r.timestamp),
    ("success", .bool r.success), ("reason", .str r.reason),
    ("durationMs", .num r.durationMs), ("tokenUsage", tokenUsageToJson r.tokenUsage),
    ("rawOutput", r.rawOutput)] ++
    (match r.judgeOutput with
     | some j => [("judgeOutput", j)]
     | none => []))

/-- Minimal JSON printer (escaping `"` and `\`), standing for `JSON.stringify`.
The persistence claims depend only on the serialized text being written whole. -/
def escapeChar (c : Char) : List Char :=
  if c = '"' || c = '\\' then ['\\', c] else [c]

mutual

def jsonToString : Json → String
  | .null => "null"
  | .bool true => "true"
  | .bool false => "false"
  | .num n => toString n
  | .str s => "\"" ++ String.mk (s.data.flatMap escapeChar) ++ "\""
  | .arr elems => "[" ++ jsonListToString elems ++ "]"
  | .obj fields => "\x7b" ++ jsonFieldsToString fields ++ "\x7d"

def jsonListToString : List Json → String
  | [] => ""
  | [j] => jsonToString j
  | j :: rest => jsonToString j ++ "," ++ jsonListToString rest

def jsonFieldsToString : List (String × Json) → String
  | [] => ""
  | [(k, v)] => "\"" ++ k ++ "\":" ++ jsonToString v
  | (k, v) :: rest => "\"" ++ k ++ "\":" ++ jsonToString v ++ "," ++ jsonFieldsToString rest

end

/-- The serialized text `saveRunResult` writes for a result. -/
def serializeRunResult (r : RunResult) : String := jsonToString (runResultToJson r)

/-! ## The write operations of `saveRunResult` (persistence.ts lines 33-59)

`saveRunResult` performs, in order: `mkdir(modelDir, {recursive:true})`;
`writeFile(tempPath, json)`; `Bun.write(filepath, await Bun.file(tempPath).text())`;
`unlink(tempPath)`.  `Bun.write` creates/truncates the destination and writes the
bytes into it — a plain, non-atomic write.  The `renameTo` constructor exists so
the atomic alternative (`fs.rename`) is expressible; the source never emits it. -/
inductive FsWriteOp where
  | mkdirRec (path : String)
  | writeWhole (path : String) (content : String)
  | renameTo (src dst : String)
  | unlinkFile (path : String)
deriving DecidableEq

/-- The sequence of filesystem write operations performed by `saveRunResult`,
paired with the returned file path. -/
def saveRunResultOps (runDir : String) (r : RunResult) : List FsWriteOp × String :=
  let filepath := runResultFilePath runDir r
  let tempPath := filepath ++ ".tmp"
  let content := serializeRunResult r
  ([ .mkdirRec (joinPath runDir (sanitizeForFilename r.modelName)),
     .writeWhole tempPath content,
     .writeWhole filepath content,
     .unlinkFile tempPath ], filepath)

/-- Whether an operation is a rename. -/
def FsWriteOp.isRenameOp : FsWriteOp → Bool
  | .renameTo _ _ => true
  | _ => false

/-- Observability of a path's content while an operation is in flight.
A plain whole-file write (`writeWhole`) first truncates the destination and then
appends: every prefix of the content is an observable state of the target path.
A `renameTo` is atomic: the destination is observable only as its full new
content (or whatever it was before), never as a partial state.  `mkdir` and
`unlink` never expose partial file contents. -/
def observableMidState (op : FsWriteOp) (p : String) (st : String) : Prop :=
  match op with
  | .writeWhole q c => p = q ∧ ∃ k, k ≤ c.length ∧ st = String.mk (c.data.take k)
  | _ => False

/-! ## The strict `RunResultSchema` (src/index.ts lines 895-921)

This is the zod schema `combine-runs.ts` imports from `./index.ts` and applies in
`readRunFiles`.  It requires `type` (an enum) and `prompt` in addition to the
fields the runner actually writes.  Decoding succeeds exactly when
`RunResultSchema.parse` would; zod strips unknown keys and fails on a required
key that is missing or of the wrong type, and on an optional key that is present
with the wrong type. -/

def Json.getField : Json → String → Option Json
  | .obj fields, k => (fields.find? fun f => f.1 == k).map (·.2)
  | _, _ => none

def Json.asStr : Json → Option String
  | .str s => some s
  | _ => none

def Json.asNum : Json → Option Int
  | .num n => some n
  | _ => none

def Json.asBool : Json → Option Bool
  | .bool b => some b
  | _ => none

/-- A required `z.string()` field. -/
def getStr (j : Json) (k : String) : Option String := (j.getField k).bind Json.asStr

/-- A required `z.number()` field. -/
def getNum (j : Json) (k : String) : Option Int := (j.getField k).bind Json.asNum

/-- A required `z.boolean()` field. -/
def getBool (j : Json) (k : String) : Option Bool := (j.getField k).bind Json.asBool

/-- A `z.string().optional()` field: absent is fine, present must be a string. -/
def getOptStr (j : Json) (k : String) : Option (Option String) :=
  match j.getField k with
  | none => some none
  | some v => v.asStr.map some

/-- A `z.number().optional()` field. -/
def getOptNum (j : Json) (k : String) : Option (Option Int) :=
  match j.getField k with
  | none => some none
  | some v => v.asNum.map some

/-- `TokenUsageSchema` (index.ts lines 895-900). -/
structure StoredTokenUsage where
  input : Int
  output : Int
  reasoning : Option Int
  total : Int
deriving Repr, DecidableEq

/-- A run result as validated by the strict `RunResultSchema`
(index.ts lines 905-921). -/
structure StoredRunResult where
  testName : String
  modelName : String
  runIndex : Int
  timestamp : String
  rrType : String
  prompt : String
  expectedAnswer : Option String
  success : Bool
  reason : String
  durationMs : Int
  tokenUsage : StoredTokenUsage
  rawOutput : Option Json
  judgeOutput : Option Json
  judgeDurationMs : Option Int
  judgeTokenUsage : Option StoredTokenUsage

/-- `TokenUsageSchema.parse`. -/
def decodeTokenUsage (j : Json) : Option StoredTokenUsage := do
  let input ← getNum j "input"
  let output ← getNum j "output"
  let reasoning ← getOptNum j "reasoning"
  let total ← getNum j "total"
  pure ⟨input, output, reasoning, total⟩

/-- `RunResultSchema.parse` (index.ts lines 905-921): returns the validated
value, or `none` when validation throws.  `rawOutput`/`judgeOutput` are
`z.unknown()` and never fail; `type` must be one of the two enum literals;
`prompt` is a required string. -/
def decodeStoredRunResult (j : Json) : Option StoredRunResult := do
  let testName ← getStr j "testName"
  let modelName ← getStr j "modelName"
  let runIndex ← getNum j "runIndex"
  let timestamp ← getStr j "timestamp"
  let rrType ← getStr j "type"
  if rrType == "text" || rrType == "structured-output" then
    let prompt ← getStr j "prompt"
    let expectedAnswer ← getOptStr j "expectedAnswer"
    let success ← getBool j "success"
    let reason ← getStr j "reason"
    let durationMs ← getNum j "durationMs"
    let tokenUsage ← (j.getField "tokenUsage").bind decodeTokenUsage
    let judgeDurationMs ← getOptNum j "judgeDurationMs"
    let judgeTokenUsage ←
      match j.getField "judgeTokenUsage" with
      | none => some none
      | some v => (decodeTokenUsage v).map some
    pure ⟨testName, modelName, runIndex, timestamp, rrType, prompt, expectedAnswer,
      success, reason, durationMs, tokenUsage, j.getField "rawOutput",
      j.getField "judgeOutput", judgeDurationMs, judgeTokenUsage⟩
  else none

/-! ## The combiner (src/index.tsx lines 429-770, i.e. combine-runs.ts) -/

/-- Content of a file on disk, as seen by `readFile` + `JSON.parse`:
either text that parses to a JSON value, or text on which `JSON.parse` throws. -/
inductive FileContent where
  | jsonText (j : Json)
  | unparsable

/-- The per-file loop body of `readRunFiles`: a file that fails to parse or to
validate is skipped and one `console.warn` is emitted; a valid file's decoded
result is appended.  Returns (results in file order, number of warnings). -/
def readRunFilesAux : List (String × FileContent) → List StoredRunResult × Nat
  | [] => ([], 0)
  | (_, c) :: rest =>
    let acc := readRunFilesAux rest
    match c with
    | .jsonText j =>
      match decodeStoredRunResult j with
      | some r => (r :: acc.1, acc.2)
      | none => (acc.1, acc.2 + 1)
    | .unparsable => (acc.1, acc.2 + 1)

/-- `f.endsWith(".json")`, modelled character-wise. -/
def strEndsWith (s suffix : String) : Bool :=
  suffix.data.length ≤ s.data.length &&
    decide (s.data.drop (s.data.length - suffix.data.length) = suffix.data)

/-- `readRunFiles` (index.tsx lines 429-447): keep only `*.json` names, then
parse + validate each, skipping invalid ones with a warning. -/
def readRunFiles (files : List (String × FileContent)) : List StoredRunResult × Nat :=
  readRunFilesAux (files.filter fun f => strEndsWith f.1 ".json")

/-- Averaged token usage (each average is a rational; 0 when there are no runs).-/
structure TokenAverages where
  input : ℚ
  output : ℚ
  reasoning : ℚ
  total : ℚ
deriving Repr, DecidableEq

/-- Per-test aggregate (`TestSummary`, index.tsx lines 378-392). -/
structure TestSummary where
  testName : String
  totalRuns : Nat
  successfulRuns : Nat
  failedRuns : Nat
  successRate : ℚ
  avgDurationMs : ℚ
  avgTokenUsage : TokenAverages
  runs : List StoredRunResult

/-- Per-model aggregate (`ModelSummary`, index.tsx lines 394-416). -/
structure ModelSummary where
  modelName : String
  totalTests : Nat
  totalRuns : Nat
  successfulRuns : Nat
  failedRuns : Nat
  successRate : ℚ
  totalDurationMs : Int
  avgDurationMs : ℚ
  totalTokenUsage : StoredTokenUsage
  avgTokenUsage : TokenAverages
  testSummaries : List TestSummary

/-- Overall aggregate (`BenchmarkSummary`, index.tsx lines 418-427). -/
structure BenchmarkSummary where
  generatedAt : String
  totalModels : Nat
  totalTests : Nat
  totalRuns : Nat
  overallSuccessRate : ℚ
  totalDurationMs : Int
  totalTokens : Int
  modelSummaries : List ModelSummary

/-- `computeTestSummary` (index.tsx lines 449-482).  Every average divides by the
run count only when it is positive, else is 0. -/
def computeTestSummary (testName : String) (runs : List StoredRunResult) : TestSummary :=
  let totalRuns := runs.length
  let successfulRuns := (runs.filter (·.success)).length
  let failedRuns := totalRuns - successfulRuns
  let successRate : ℚ := if totalRuns > 0 then (successfulRuns : ℚ) / totalRuns * 100 else 0
  let totalDuration : Int := (runs.map (·.durationMs)).sum
  let avgDurationMs : ℚ := if totalRuns > 0 then (totalDuration : ℚ) / totalRuns else 0
  let tIn : Int := (runs.map (·.tokenUsage.input)).sum
  let tOut : Int := (runs.map (·.tokenUsage.output)).sum
  let tReas : Int := (runs.map fun r => (r.tokenUsage.reasoning).getD 0).sum
  let tTot : Int := (runs.map (·.tokenUsage.total)).sum
  { testName, totalRuns, successfulRuns, failedRuns, successRate, avgDurationMs,
    avgTokenUsage :=
      { input := if totalRuns > 0 then (tIn : ℚ) / totalRuns else 0,
        output := if totalRuns > 0 then (tOut : ℚ) / totalRuns else 0,
        reasoning := if totalRuns > 0 then (tReas : ℚ) / totalRuns else 0,
        total := if totalRuns > 0 then (tTot : ℚ) / totalRuns else 0 },
    runs }

/-- Grouping step of `computeModelSummary`: a JS `Map` keyed by test name keeps
first-insertion key order and appends within a group. -/
def insertRunByTest (groups : List (String × List StoredRunResult)) (r : StoredRunResult) :
    List (String × List StoredRunResult) :=
  match groups with
  | [] => [(r.testName, [r])]
  | (k, g) :: rest =>
    if k = r.testName then (k, g ++ [r]) :: rest else (k, g) :: insertRunByTest rest r

def groupByTestName (runs : List StoredRunResult) : List (String × List StoredRunResult) :=
  runs.foldl insertRunByTest []

/-- Name-sorting used for test summaries (`localeCompare`, here plain string
order; the names in scope are plain ASCII). -/
def insertTestSummarySorted (t : TestSummary) : List TestSummary → List TestSummary
  | [] => [t]
  | u :: rest =>
    if t.testName ≤ u.testName then t :: u :: rest else u :: insertTestSummarySorted t rest

def sortTestSummaries (l : List TestSummary) : List TestSummary :=
  l.foldl (fun acc t => insertTestSummarySorted t acc) []

def insertModelSummarySorted (m : ModelSummary) : List ModelSummary → List ModelSummary
  | [] => [m]
  | u :: rest =>
    if m.modelName ≤ u.modelName then m :: u :: rest else u :: insertModelSummarySorted m rest

def sortModelSummaries (l : List ModelSummary) : List ModelSummary :=
  l.foldl (fun acc m => insertModelSummarySorted m acc) []

/-- `computeModelSummary` (index.tsx lines 484-541). -/
def computeModelSummary (modelName : String) (runs : List StoredRunResult) : ModelSummary :=
  let runsByTest := groupByTestName runs
  let testSummaries := sortTestSummaries (runsByTest.map fun g => computeTestSummary g.1 g.2)
  let totalRuns := runs.length
  let successfulRuns := (runs.filter (·.success)).length
  let failedRuns := totalRuns - successfulRuns
  let successRate : ℚ := if totalRuns > 0 then (successfulRuns : ℚ) / totalRuns * 100 else 0
  let totalDurationMs : Int := (runs.map (·.durationMs)).sum
  let avgDurationMs : ℚ := if totalRuns > 0 then (totalDurationMs : ℚ) / totalRuns else 0
  let tIn : Int := (runs.map (·.tokenUsage.input)).sum
  let tOut : Int := (runs.map (·.tokenUsage.output)).sum
  let tReas : Int := (runs.map fun r => (r.tokenUsage.reasoning).getD 0).sum
  let tTot : Int := (runs.map (·.tokenUsage.total)).sum
  { modelName, totalTests := runsByTest.length, totalRuns, successfulRuns, failedRuns,
    successRate, totalDurationMs, avgDurationMs,
    totalTokenUsage := ⟨tIn, tOut, some tReas, tTot⟩,
    avgTokenUsage :=
      { input := if totalRuns > 0 then (tIn : ℚ) / totalRuns else 0,
        output := if totalRuns > 0 then (tOut : ℚ) / totalRuns else 0,
        reasoning := if totalRuns > 0 then (tReas : ℚ) / totalRuns else 0,
        total := if totalRuns > 0 then (tTot : ℚ) / totalRuns else 0 },
    testSummaries }

/-- `combineModelRuns` (index.tsx lines 546-565) for a model directory that
exists (directories handed to it by `combineRunDir` come from `readdir`):
reads the run files; with zero valid runs it warns once more and contributes
nothing; otherwise it produces the model summary.
Returns (summary?, total warnings). -/
def combineModelRuns (modelName : String) (files : List (String × FileContent)) :
    Option ModelSummary × Nat :=
  let res := readRunFiles files
  if res.1.length = 0 then (none, res.2 + 1)
  else (some (computeModelSummary modelName res.1), res.2)

/-- An entry of a run directory as returned by `readdir(..., {withFileTypes:true})`:
either a model subdirectory (with its own files) or a plain file. -/
inductive RunDirEntry where
  | subdir (name : String) (files : List (String × FileContent))
  | plainFile (name : String)

/-- The all-zero summary returned on the empty/missing branches of the combiner
(index.tsx lines 584-593, 603-611, 695-704, 713-722, 733-742). -/
def emptySummary (now : String) : BenchmarkSummary :=
  { generatedAt := now, totalModels := 0, totalTests := 0, totalRuns := 0,
    overallSuccessRate := 0, totalDurationMs := 0, totalTokens := 0,
    modelSummaries := [] }

/-- Accumulate `combineModelRuns` over the model directories (the loop at
index.tsx lines 617-623), collecting summaries and warnings. -/
def combineModelDirList : List (String × List (String × FileContent)) →
    List ModelSummary × Nat
  | [] => ([], 0)
  | (name, files) :: rest =>
    let here := combineModelRuns name files
    let acc := combineModelDirList rest
    match here.1 with
    | some s => (s :: acc.1, here.2 + acc.2)
    | none => (acc.1, here.2 + acc.2)

/-- The unique-test count (index.tsx lines 646-651): a JS `Set` over all test
names of all model summaries. -/
def uniqueTestCount (models : List ModelSummary) : Nat :=
  ((models.flatMap fun m => m.testSummaries.map (·.testName)).eraseDups).length

/-- The summary artifact's file name (index.tsx lines 669-671). -/
def summaryFileName (benchmarkName runTimestamp : String) (outputFilename : Option String) :
    String :=
  match outputFilename with
  | some o => o ++ "-summary.json"
  | none => benchmarkName ++ "-" ++ runTimestamp ++ "-summary.json"

/-- `combineRunDir` (index.tsx lines 574-678).  `fs` is the run directory:
`none` when `existsSync` is false, otherwise its `readdir` entries.  Returns the
summary, the number of `console.warn` calls, and the list of files written (the
summary artifact path when one is produced).  On the missing-directory and
no-model-subdirectory branches the function returns the all-zero summary before
reaching the write. -/
def combineRunDir (fs : Option (List RunDirEntry)) (benchmarkName runTimestamp : String)
    (outputFilename : Option String) (now : String) :
    BenchmarkSummary × Nat × List String :=
  match fs with
  | none => (emptySummary now, 0, [])
  | some entries =>
    let modelDirs := entries.filterMap fun e =>
      match e with
      | .subdir n files => some (n, files)
      | .plainFile _ => none
    if modelDirs.length = 0 then (emptySummary now, 0, [])
    else
      let combined := combineModelDirList modelDirs
      let modelSummaries := sortModelSummaries combined.1
      let totalRuns := (modelSummaries.map (·.totalRuns)).sum
      let successfulRuns := (modelSummaries.map (·.successfulRuns)).sum
      let overallSuccessRate : ℚ :=
        if totalRuns > 0 then (successfulRuns : ℚ) / totalRuns * 100 else 0
      let totalDurationMs : Int := (modelSummaries.map (·.totalDurationMs)).sum
      let totalTokens : Int := (modelSummaries.map (·.totalTokenUsage.total)).sum
      let summary : BenchmarkSummary :=
        { generatedAt := now, totalModels := modelSummaries.length,
          totalTests := uniqueTestCount modelSummaries, totalRuns,
          overallSuccessRate, totalDurationMs, totalTokens, modelSummaries }
      (summary, combined.2,
        [joinPath "results" (summaryFileName benchmarkName runTimestamp outputFilename)])

/-- An entry of the parent `runs` directory: a benchmark-run subdirectory
(with its own entries) or a plain file. -/
inductive RunsDirEntry where
  | runDir (name : String) (entries : List RunDirEntry)
  | plainFile (name : String)

/-- Character-level check for the trailing run timestamp pattern
`\d{4}-\d{2}-\d{2}T\d{2}-\d{2}-\d{2}-\d{3}Z` (index.tsx lines 749-751). -/
def isRunTimestamp (s : String) : Bool :=
  match s.data with
  | [y1, y2, y3, y4, h1, m1, m2, h2, d1, d2, t, hh1, hh2, h3, mi1, mi2, h4,
     ss1, ss2, h5, ms1, ms2, ms3, z] =>
    y1.isDigit && y2.isDigit && y3.isDigit && y4.isDigit && h1 = '-' &&
    m1.isDigit && m2.isDigit && h2 = '-' && d1.isDigit && d2.isDigit && t = 'T' &&
    hh1.isDigit && hh2.isDigit && h3 = '-' && mi1.isDigit && mi2.isDigit && h4 = '-' &&
    ss1.isDigit && ss2.isDigit && h5 = '-' && ms1.isDigit && ms2.isDigit && ms3.isDigit &&
    z = 'Z'
  | _ => false

/-- The regex match at index.tsx lines 749-757: split `{benchmark}-{timestamp}`
when the name ends with `-` followed by a run timestamp. -/
def matchRunDirName (name : String) : Option (String × String) :=
  let cs := name.data
  if cs.length ≥ 25 then
    let ts := String.mk (cs.drop (cs.length - 24))
    if isRunTimestamp ts && cs.get? (cs.length - 25) = some '-' then
      some (String.mk (cs.take (cs.length - 25)), ts)
    else none
  else none

/-- String-sorting of directory names (`runDirs.sort()`, index.tsx line 726). -/
def insertNameSorted (d : String × List RunDirEntry) :
    List (String × List RunDirEntry) → List (String × List RunDirEntry)
  | [] => [d]
  | u :: rest => if d.1 ≤ u.1 then d :: u :: rest else u :: insertNameSorted d rest

def sortRunDirs (l : List (String × List RunDirEntry)) : List (String × List RunDirEntry) :=
  l.foldl (fun acc d => insertNameSorted d acc) []

/-- `combineAllRuns` (index.tsx lines 686-770).  `parent` is the runs directory:
`none` when `existsSync` is false (the source then creates it — recorded by the
returned `createdDir` flag — and returns the all-zero summary); otherwise its
entries.  With no run subdirectories it returns the all-zero summary; otherwise
it recurses into the name-wise most recent run directory.
Returns (summary, warnings, written files, createdDir). -/
def combineAllRuns (parent : Option (List RunsDirEntry))
    (outputFilename : Option String) (now fallbackTimestamp : String) :
    BenchmarkSummary × Nat × List String × Bool :=
  match parent with
  | none => (emptySummary now, 0, [], true)
  | some entries =>
    let runDirs := entries.filterMap fun e =>
      match e with
      | .runDir n es => some (n, es)
      | .plainFile _ => none
    match (sortRunDirs runDirs).getLast? with
    | none => (emptySummary now, 0, [], false)
    | some (name, dirEntries) =>
      let split :=
        match matchRunDirName name with
        | some bt => bt
        | none => (name, fallbackTimestamp)
      let r := combineRunDir (some dirEntries) split.1 split.2 outputFilename now
      (r.1, r.2.1, r.2.2, false)

/-! ## The scheduler (`BenchmarkRunner.run` / `executeRun`, persistence.ts 147-231)

`run` fans the model × test × runIndex matrix out through `pLimit(parallelLimit)`
and awaits all tasks; `executeRun` emits `run:start`, invokes the remote call,
saves and pushes the result and emits `run:complete`; on any throw it emits
`run:error`, synthesizes a failure result, saves and pushes it and emits
`run:complete`.  The remote call and the two `saveRunResult` awaits are the
suspension points; their outcomes are supplied by an `ItemEnv`.  A throw of the
`saveRunResult` in the catch block is uncaught and rejects the item's task. -/

/-- The work matrix of `run` (persistence.ts lines 157-167): for each model, for
each test, for each `runIndex < runsPerTest`, one work item. -/
def workMatrix (models tests : List String) (runsPerTest : Nat) : List ItemKey :=
  models.flatMap fun m =>
    tests.flatMap fun t =>
      (List.range runsPerTest).map fun ri => ⟨t, m, ri⟩

/-- What a successful execute path (`executeTextTest` / `executeStructuredTest`)
returns, minus the identity fields that `executeRun` supplies from its own
arguments. -/
structure ResultPayload where
  timestamp : String
  success : Bool
  reason : String
  durationMs : Nat
  tokenUsage : TokenUsage
  rawOutput : Json
  judgeOutput : Option Json

/-- Assemble the `RunResult` returned by the execute path for a work item: the
identity triple comes from the item, the rest from the remote outcome. -/
def mkRunResult (k : ItemKey) (p : ResultPayload) : RunResult :=
  ⟨k.testName, k.modelName, k.runIndex, p.timestamp, p.success, p.reason,
    p.durationMs, p.tokenUsage, p.rawOutput, p.judgeOutput⟩

/-- The synthesized failure result (persistence.ts lines 215-225):
`success: false`, reason `"Error: " ++ message`, zero token usage (no
`reasoning` property), `rawOutput` the `JSON.stringify` of a plain `Error`
(which has no enumerable own properties, hence `"{}"`), no `judgeOutput`. -/
def failedRunResult (k : ItemKey) (msg : String) (timestamp : String)
    (durationMs : Nat) : RunResult :=
  ⟨k.testName, k.modelName, k.runIndex, timestamp, false, "Error: " ++ msg,
    durationMs, ⟨0, 0, none, 0⟩, .str "\x7b\x7d", none⟩

/-- Environment of one work item: the outcome of its remote execute call
(`.ok payload` or `.error message`, the latter covering throws and the
`AbortSignal.timeout` abort) and of its two possible `saveRunResult` awaits,
plus the wall-clock values read on the error path. -/
structure ItemEnv where
  exec : Except String ResultPayload
  save1Ok : Bool
  save1ErrMsg : String
  save2Ok : Bool
  errTimestamp : String
  errDurationMs : Nat

/-- The message of the `Error` reaching the catch block: the execute throw, or
the failure of the first `saveRunResult`. -/
def errMsgOf (e : ItemEnv) : String :=
  match e.exec with
  | .error m => m
  | .ok _ => e.save1ErrMsg

/-- Whether the item goes through the catch block. -/
def errorPathB (e : ItemEnv) : Bool :=
  match e.exec with
  | .error _ => true
  | .ok _ => !e.save1Ok

/-- The terminal `RunResult` an item ends with when `executeRun` returns
normally: the execute result if both the call and its save succeed, the
synthesized failure otherwise. -/
def terminalResult (k : ItemKey) (e : ItemEnv) : RunResult :=
  match e.exec, e.save1Ok with
  | .ok p, true => mkRunResult k p
  | _, _ => failedRunResult k (errMsgOf e) e.errTimestamp e.errDurationMs

/-- Lifecycle events (`RunnerEvents`, persistence.ts lines 61-72), plus a
`saveEvt` marker recording the completion of a `saveRunResult` await, so that
persist-before-notify ordering is part of the trace. -/
inductive Event where
  | benchmarkStart (totalTests runsPerTest : Nat)
  | runStart (k : ItemKey)
  | runError (k : ItemKey) (msg : String)
  | saveEvt (r : RunResult)
  | runComplete (r : RunResult)
  | benchmarkComplete (results : List RunResult)

/-- The work item an event belongs to, if any. -/
def eventKey : Event → Option ItemKey
  | .benchmarkStart _ _ => none
  | .runStart k => some k
  | .runError k _ => some k
  | .saveEvt r => some r.key
  | .runComplete r => some r.key
  | .benchmarkComplete _ => none

/-- Where a work item is in `executeRun`:
* `notStarted` — still queued inside `pLimit`;
* `running` — `run:start` emitted, awaiting the execute call (or its save);
* `erroredPending m` — the catch block entered with error message `m`,
  `run:error` emitted, awaiting the save of the synthesized failure;
* `done` — `executeRun` returned normally (`run:complete` emitted);
* `thrownOut` — the catch-block save threw, so `executeRun` rejected its task
  without a terminal event. -/
inductive Phase where
  | notStarted
  | running
  | erroredPending (msg : String)
  | done
  | thrownOut
deriving DecidableEq, Repr

def phaseIsDone : Phase → Bool
  | .done => true
  | _ => false

def phaseIsRunning : Phase → Bool
  | .running => true
  | _ => false

/-- Whether the item currently occupies a `pLimit` slot (its `executeRun`
invocation has started and not yet returned or thrown). -/
def phaseInFlight : Phase → Bool
  | .running => true
  | .erroredPending _ => true
  | _ => false

/-- Count of items whose phase satisfies `q`. -/
def cntF {n : Nat} (f : Fin n → Phase) (q : Phase → Bool) : Nat :=
  (List.finRange n).countP fun j => q (f j)

/-- State of the whole batch: per-item phases, the emitted event trace, the
runner's `this.results` array, the currently-running items in start order
(bookkeeping mirroring the store's active list), and whether
`benchmark:complete` has been emitted. -/
structure SysState (n : Nat) where
  phase : Fin n → Phase
  trace : List Event
  results : List RunResult
  runningOrder : List (Fin n)
  completedFlag : Bool

def limiterCount {n : Nat} (s : SysState n) : Nat := cntF s.phase phaseInFlight

/-- State before any task is dispatched: `run` has already emitted
`benchmark:start` (persistence.ts lines 149-152). -/
def initState (n totalTests runsPerTest : Nat) : SysState n :=
  ⟨fun _ => .notStarted, [.benchmarkStart totalTests runsPerTest], [], [], false⟩

/-- Small-step semantics of the batch.  `K` is `parallelLimit`: `pLimit(K)`
starts a queued task only while fewer than `K` are in flight.  Each step is one
scheduling decision or the code executed between two suspension points of one
item's `executeRun`:
* `start` — `pLimit` dispatches a queued item; `run:start` is emitted
  synchronously at the top of `executeRun`;
* `finishOk` — the execute call returned and its `saveRunResult` succeeded: the
  save completes, the result is pushed and `run:complete` is emitted;
* `execErr` — the execute call threw (or timed out): the catch block emits
  `run:error`;
* `save1Err` — the execute call returned but its save threw: the catch block
  emits `run:error` with the save failure;
* `finishErr` — the catch block's save of the synthesized failure succeeded:
  the failure result is pushed and `run:complete` is emitted;
* `save2Err` — the catch block's save threw: `executeRun` rejects with no
  further event;
* `finishBatch` — every task settled successfully, `Promise.all` resolved and
  `run` emits `benchmark:complete` with `this.results`. -/
inductive Step {n : Nat} (items : Fin n → ItemKey) (env : Fin n → ItemEnv) (K : Nat) :
    SysState n → SysState n → Prop where
  | start (s : SysState n) (i : Fin n)
      (h : s.phase i = .notStarted) (hcap : limiterCount s < K) :
      Step items env K s
        { phase := Function.update s.phase i .running,
          trace := s.trace ++ [.runStart (items i)],
          results := s.results,
          runningOrder := s.runningOrder ++ [i],
          completedFlag := s.completedFlag }
  | finishOk (s : SysState n) (i : Fin n) (p : ResultPayload)
      (h : s.phase i = .running) (he : (env i).exec = .ok p)
      (hs : (env i).save1Ok = true) :
      Step items env K s
        { phase := Function.update s.phase i .done,
          trace := s.trace ++
            [.saveEvt (mkRunResult (items i) p), .runComplete (mkRunResult (items i) p)],
          results := s.results ++ [mkRunResult (items i) p],
          runningOrder := s.runningOrder.erase i,
          completedFlag := s.completedFlag }
  | execErr (s : SysState n) (i : Fin n) (m : String)
      (h : s.phase i = .running) (he : (env i).exec = .error m) :
      Step items env K s
        { phase := Function.update s.phase i (.erroredPending m),
          trace := s.trace ++ [.runError (items i) m],
          results := s.results,
          runningOrder := s.runningOrder.erase i,
          completedFlag := s.completedFlag }
  | save1Err (s : SysState n) (i : Fin n) (p : ResultPayload)
      (h : s.phase i = .running) (he : (env i).exec = .ok p)
      (hs : (env i).save1Ok = false) :
      Step items env K s
        { phase := Function.update s.phase i (.erroredPending (env i).save1ErrMsg),
          trace := s.trace ++ [.runError (items i) (env i).save1ErrMsg],
          results := s.results,
          runningOrder := s.runningOrder.erase i,
          completedFlag := s.completedFlag }
  | finishErr (s : SysState n) (i : Fin n) (m : String)
      (h : s.phase i = .erroredPending m) (hs : (env i).save2Ok = true) :
      Step items env K s
        { phase := Function.update s.phase i .done,
          trace := s.trace ++
            [.saveEvt (failedRunResult (items i) m (env i).errTimestamp (env i).errDurationMs),
             .runComplete (failedRunResult (items i) m (env i).errTimestamp (env i).errDurationMs)],
          results := s.results ++
            [failedRunResult (items i) m (env i).errTimestamp (env i).errDurationMs],
          runningOrder := s.runningOrder,
          completedFlag := s.completedFlag }
  | save2Err (s : SysState n) (i : Fin n) (m : String)
      (h : s.phase i = .erroredPending m) (hs : (env i).save2Ok = false) :
      Step items env K s
        { phase := Function.update s.phase i .thrownOut,
          trace := s.trace,
          results := s.results,
          runningOrder := s.runningOrder,
          completedFlag := s.completedFlag }
  | finishBatch (s : SysState n)
      (h : ∀ i, s.phase i = .done) (hf : s.completedFlag = false) :
      Step items env K s
        { phase := s.phase,
          trace := s.trace ++ [.benchmarkComplete s.results],
          results := s.results,
          runningOrder := s.runningOrder,
          completedFlag := true }

/-- States reachable by the batch from dispatch. -/
inductive Reachable {n : Nat} (items : Fin n → ItemKey) (env : Fin n → ItemEnv)
    (K totalTests runsPerTest : Nat) : SysState n → Prop where
  | refl : Reachable items env K totalTests runsPerTest (initState n totalTests runsPerTest)
  | tail {s s' : SysState n} :
      Reachable items env K totalTests runsPerTest s → Step items env K s s' →
      Reachable items env K totalTests runsPerTest s'

/-! ## The progress store (`useBenchmarkStore`, src/use-benchmark-store.ts)

The store is modelled at the level of its refs (`activeRunsRef`,
`completedResultsRef`, `errorsRef`) and the counters recomputed from them: every
flush (`forceUpdate` / the deferred `scheduleUpdate`) copies exactly these
values into the React state, so the invariants below hold of every published
snapshot.  `Date.now()` (the `startTime` of an `ActiveRun`) is abstracted as 0;
no invariant reads it. -/

/-- `ActiveRun` (use-benchmark-store.ts lines 5-10). -/
structure ActiveRun where
  testName : String
  modelName : String
  runIndex : Nat
  startTime : Nat
deriving DecidableEq, Repr

/-- An entry of the store's error list. -/
structure StoreError where
  testName : String
  modelName : String
  message : String

/-- The store state (`BenchmarkStoreState`, config fields omitted except those
the invariants mention). -/
structure StoreState where
  totalTests : Nat
  runsPerTest : Nat
  totalRuns : Nat
  completedRuns : Nat
  successfulRuns : Nat
  failedRuns : Nat
  totalTokens : Nat
  activeRuns : List ActiveRun
  completedResults : List RunResult
  errors : List StoreError
  isComplete : Bool

/-- Initial store state (use-benchmark-store.ts lines 56-76):
`totalRuns = config.totalTests * config.runsPerTest`. -/
def initStore (totalTests runsPerTest : Nat) : StoreState :=
  { totalTests, runsPerTest, totalRuns := totalTests * runsPerTest,
    completedRuns := 0, successfulRuns := 0, failedRuns := 0, totalTokens := 0,
    activeRuns := [], completedResults := [], errors := [], isComplete := false }

/-- One event handler of `useBenchmarkStore` (lines 137-239):
* `benchmark:start` recomputes `totalRuns`;
* `run:start` appends an `ActiveRun`;
* `run:complete` removes the matching active run by the full composite key,
  appends the result, and recomputes all counters from the completed list;
* `run:error` removes the matching active run and appends an error entry;
* `benchmark:complete` sets the completion flag. -/
def applyEvent (s : StoreState) (e : Event) : StoreState :=
  match e with
  | .benchmarkStart tt rpt =>
    { s with totalTests := tt, runsPerTest := rpt, totalRuns := tt * rpt }
  | .runStart k =>
    { s with activeRuns := s.activeRuns ++ [⟨k.testName, k.modelName, k.runIndex, 0⟩] }
  | .runComplete r =>
    let act := s.activeRuns.filter fun a =>
      !(a.testName == r.testName && a.modelName == r.modelName && a.runIndex == r.runIndex)
    let comp := s.completedResults ++ [r]
    let compCount := comp.length
    let succCount := (comp.filter (·.success)).length
    { s with
      activeRuns := act, completedResults := comp,
      completedRuns := compCount, successfulRuns := succCount,
      failedRuns := compCount - succCount,
      totalTokens := (comp.map (·.tokenUsage.total)).sum }
  | .runError k _msg =>
    { s with
      activeRuns := s.activeRuns.filter fun a =>
        !(a.testName == k.testName && a.modelName == k.modelName && a.runIndex == k.runIndex),
      errors := s.errors ++ [⟨k.testName, k.modelName, _msg⟩] }
  | .saveEvt _ => s
  | .benchmarkComplete _ => { s with isComplete := true }

/-- The store state after consuming a trace of scheduler events. -/
def storeAt (totalTests runsPerTest : Nat) (tr : List Event) : StoreState :=
  tr.foldl applyEvent (initStore totalTests runsPerTest)

/-- The `ActiveRun` the store creates for a dispatched item. -/
def mkActive (k : ItemKey) : ActiveRun := ⟨k.testName, k.modelName, k.runIndex, 0⟩

/-- The full event sequence one work item contributes to the trace, as a
function of where it is in `executeRun`. -/
def expectedEvents (k : ItemKey) (e : ItemEnv) : Phase → List Event
  | .notStarted => []
  | .running => [.runStart k]
  | .erroredPending m => [.runStart k, .runError k m]
  | .thrownOut => [.runStart k, .runError k (errMsgOf e)]
  | .done =>
    if errorPathB e then
      [.runStart k, .runError k (errMsgOf e), .saveEvt (terminalResult k e),
       .runComplete (terminalResult k e)]
    else
      [.runStart k, .saveEvt (terminalResult k e), .runComplete (terminalResult k e)]

/-! ### Counting helpers -/

theorem countP_congr_eq {α : Type} (p q : α → Bool) (l : List α)
    (h : ∀ a ∈ l, p a = q a) : l.countP p = l.countP q := by
  induction l with
  | nil => rfl
  | cons a l ih =>
    rw [List.countP_cons, List.countP_cons,
      ih fun b hb => h b (List.mem_cons_of_mem a hb), h a (List.mem_cons_self a l)]

theorem countP_update_list {n : Nat} (f : Fin n → Phase) (q : Phase → Bool)
    (i : Fin n) (v : Phase) (l : List (Fin n)) (hnd : l.Nodup) :
    l.countP (fun j => q (Function.update f i v j)) +
        (if i ∈ l then (if q (f i) = true then 1 else 0) else 0)
      = l.countP (fun j => q (f j)) +
        (if i ∈ l then (if q v = true then 1 else 0) else 0) := by
  induction l with
  | nil => simp
  | cons a l ih =>
    rcases List.nodup_cons.mp hnd with ⟨hal, hl⟩
    by_cases hai : a = i
    · subst hai
      have htail : l.countP (fun j => q (Function.update f a v j)) =
          l.countP (fun j => q (f j)) := by
        refine countP_congr_eq _ _ l fun b hb => ?_
        have hba : b ≠ a := fun hba => hal (hba ▸ hb)
        rw [Function.update_noteq hba]
      have h1 : a ∈ a :: l := List.mem_cons_self a l
      simp only [List.countP_cons, Function.update_same, htail]
      rw [if_pos h1, if_pos h1]
      by_cases hv : q v = true <;> by_cases hf : q (f a) = true <;>
        simp [hv, hf]
    · have hne : a ≠ i := hai
      have hia : i ≠ a := fun h => hai h.symm
      have hiff : (i ∈ a :: l) ↔ (i ∈ l) := by
        rw [List.mem_cons]
        exact or_iff_right fun h => hia h
      have H := ih hl
      simp only [List.countP_cons, Function.update_noteq hne]
      by_cases hil : i ∈ l
      · rw [if_pos (hiff.mpr hil), if_pos (hiff.mpr hil)]
        rw [if_pos hil, if_pos hil] at H
        omega
      · rw [if_neg fun hc => hil (hiff.mp hc), if_neg fun hc => hil (hiff.mp hc)]
        rw [if_neg hil, if_neg hil] at H
        omega

/-- Effect of updating one item's phase on a phase count. -/
theorem cntF_update {n : Nat} (f : Fin n → Phase) (q : Phase → Bool)
    (i : Fin n) (v : Phase) :
    cntF (Function.update f i v) q + (if q (f i) = true then 1 else 0)
      = cntF f q + (if q v = true then 1 else 0) := by
  have h := countP_update_list f q i v (List.finRange n) (List.nodup_finRange n)
  simpa [cntF, List.mem_finRange] using h

theorem countP_disjoint_le_length {α : Type} (p q : α → Bool) (l : List α)
    (h : ∀ a, ¬(p a = true ∧ q a = true)) :
    l.countP p + l.countP q ≤ l.length := by
  induction l with
  | nil => simp
  | cons a l ih =>
    rw [List.countP_cons, List.countP_cons, List.length_cons]
    have ha := h a
    by_cases hp : p a = true <;> by_cases hq : q a = true <;>
      simp [hp, hq] at ha ⊢ <;> omega

/-! ### Key computations -/

theorem mkRunResult_key (k : ItemKey) (p : ResultPayload) :
    (mkRunResult k p).key = k := rfl

theorem failedRunResult_key (k : ItemKey) (m ts : String) (d : Nat) :
    (failedRunResult k m ts d).key = k := rfl

theorem terminalResult_key (k : ItemKey) (e : ItemEnv) :
    (terminalResult k e).key = k := by
  unfold terminalResult
  rcases e.exec with m | p <;> rcases hs : e.save1Ok <;> rfl

theorem terminalResult_of_errorPath (k : ItemKey) (e : ItemEnv)
    (h : errorPathB e = true) :
    terminalResult k e = failedRunResult k (errMsgOf e) e.errTimestamp e.errDurationMs := by
  unfold terminalResult errorPathB at *
  rcases he : e.exec with m | p
  · rfl
  · rw [he] at h
    simp only [Bool.not_eq_true'] at h
    rw [h]

theorem terminalResult_of_okPath (k : ItemKey) (e : ItemEnv) (p : ResultPayload)
    (he : e.exec = .ok p) (hs : e.save1Ok = true) :
    terminalResult k e = mkRunResult k p := by
  unfold terminalResult
  rw [he, hs]

/-- The Boolean key test the store uses on an `ActiveRun` against a result's
identity fields, reduced to key equality. -/
theorem activeMatch_eq (k : ItemKey) (r : RunResult) :
    ((mkActive k).testName == r.testName && (mkActive k).modelName == r.modelName &&
      (mkActive k).runIndex == r.runIndex) = decide (k = r.key) := by
  rcases k with ⟨t, m, i⟩
  rcases r with ⟨t', m', i', _, _, _, _, _, _, _⟩
  simp [mkActive, RunResult.key, ItemKey.mk.injEq, Bool.and_assoc, decide_eq_true_eq]
  by_cases h1 : t = t' <;> by_cases h2 : m = m' <;> by_cases h3 : i = i' <;>
    simp [h1, h2, h3]

/-- Same, for the error-event key fields. -/
theorem activeMatchKey_eq (k k' : ItemKey) :
    ((mkActive k).testName == k'.testName && (mkActive k).modelName == k'.modelName &&
      (mkActive k).runIndex == k'.runIndex) = decide (k = k') := by
  rcases k with ⟨t, m, i⟩
  rcases k' with ⟨t', m', i'⟩
  simp [mkActive, ItemKey.mk.injEq, Bool.and_assoc, decide_eq_true_eq]
  by_cases h1 : t = t' <;> by_cases h2 : m = m' <;> by_cases h3 : i = i' <;>
    simp [h1, h2, h3]

/-! ### The reachability invariant of the batch machine -/

theorem storeAt_append (tt rpt : Nat) (tr c : List Event) :
    storeAt tt rpt (tr ++ c) = c.foldl applyEvent (storeAt tt rpt tr) :=
  List.foldl_append _ _ _ _

theorem filter_map_comm {α β : Type} (f : α → β) (p : β → Bool) (l : List α) :
    (l.map f).filter p = (l.filter fun a => p (f a)).map f := by
  induction l with
  | nil => rfl
  | cons a l ih => by_cases h : p (f a) <;> simp [List.filter_cons, h, ih]

theorem erase_eq_filter_ne {n : Nat} (l : List (Fin n)) (hnd : l.Nodup) (i : Fin n) :
    l.erase i = l.filter fun j => !decide (j = i) := by
  rw [hnd.erase_eq_filter i]; rfl

/-- The master invariant of reachable batch states: each item's contribution to
the trace is determined by its phase; the runner's results array counts the done
items; the bookkeeping running list mirrors the phases; and the progress store
computed from the trace agrees field by field with the machine state. -/
structure MachineInv {n : Nat} (items : Fin n → ItemKey) (env : Fin n → ItemEnv)
    (tt rpt : Nat) (s : SysState n) : Prop where
  trace_item : ∀ i : Fin n,
    (s.trace.filter fun e => decide (eventKey e = some (items i)))
      = expectedEvents (items i) (env i) (s.phase i)
  pend_msg : ∀ i m, s.phase i = .erroredPending m → m = errMsgOf (env i)
  pend_path : ∀ i m, s.phase i = .erroredPending m → errorPathB (env i) = true
  results_len : s.results.length = cntF s.phase phaseIsDone
  ro_nodup : s.runningOrder.Nodup
  ro_mem : ∀ j, j ∈ s.runningOrder ↔ s.phase j = .running
  st_completed : (storeAt tt rpt s.trace).completedResults = s.results
  st_ccount : (storeAt tt rpt s.trace).completedRuns = s.results.length
  st_succ : (storeAt tt rpt s.trace).successfulRuns
      = (s.results.filter (·.success)).length
  st_failed : (storeAt tt rpt s.trace).failedRuns
      = s.results.length - (s.results.filter (·.success)).length
  st_tokens : (storeAt tt rpt s.trace).totalTokens
      = (s.results.map (·.tokenUsage.total)).sum
  st_active : (storeAt tt rpt s.trace).activeRuns
      = s.runningOrder.map fun j => mkActive (items j)
  st_total : (storeAt tt rpt s.trace).totalRuns = tt * rpt
  st_flag : (storeAt tt rpt s.trace).isComplete = s.completedFlag
  flag_done : s.completedFlag = true → ∀ i, s.phase i = .done
  flag_evt : s.completedFlag = true → Event.benchmarkComplete s.results ∈ s.trace

theorem machineInv_init {n : Nat} (items : Fin n → ItemKey) (env : Fin n → ItemEnv)
    (K tt rpt : Nat) : MachineInv items env tt rpt (initState n tt rpt) := by
  refine ⟨?_, ?_, ?_, ?_, ?_, ?_, ?_, ?_, ?_, ?_, ?_, ?_, ?_, ?_, ?_, ?_⟩
  · intro i
    simp [initState, eventKey, expectedEvents]
  · intro i m h
    simp [initState] at h
  · intro i m h
    simp [initState] at h
  · simp [initState, cntF, phaseIsDone]
  · simp [initState]
  · intro j
    simp [initState]
  · simp [initState, storeAt, applyEvent, initStore]
  · simp [initState, storeAt, applyEvent, initStore]
  · simp [initState, storeAt, applyEvent, initStore]
  · simp [initState, storeAt, applyEvent, initStore]
  · simp [initState, storeAt, applyEvent, initStore]
  · simp [initState, storeAt, applyEvent, initStore]
  · simp [initState, storeAt, applyEvent, initStore]
  · simp [initState, storeAt, applyEvent, initStore]
  · intro h
    simp [initState] at h
  · intro h
    simp [initState] at h

/-! ### Store evolution over one chunk of emitted events -/

theorem store_runStart (tt rpt : Nat) (tr : List Event) (k : ItemKey) :
    storeAt tt rpt (tr ++ [.runStart k])
      = { storeAt tt rpt tr with
          activeRuns := (storeAt tt rpt tr).activeRuns ++ [mkActive k] } := by
  rw [storeAt_append]; rfl

theorem store_runError (tt rpt : Nat) (tr : List Event) (k : ItemKey) (m : String) :
    storeAt tt rpt (tr ++ [.runError k m])
      = { storeAt tt rpt tr with
          activeRuns := (storeAt tt rpt tr).activeRuns.filter fun a =>
            !(a.testName == k.testName && a.modelName == k.modelName &&
              a.runIndex == k.runIndex),
          errors := (storeAt tt rpt tr).errors ++ [⟨k.testName, k.modelName, m⟩] } := by
  rw [storeAt_append]; rfl

theorem store_complete (tt rpt : Nat) (tr : List Event) (r : RunResult) :
    storeAt tt rpt (tr ++ [.saveEvt r, .runComplete r])
      = { storeAt tt rpt tr with
          activeRuns := (storeAt tt rpt tr).activeRuns.filter fun a =>
            !(a.testName == r.testName && a.modelName == r.modelName &&
              a.runIndex == r.runIndex),
          completedResults := (storeAt tt rpt tr).completedResults ++ [r],
          completedRuns := ((storeAt tt rpt tr).completedResults ++ [r]).length,
          successfulRuns :=
            (((storeAt tt rpt tr).completedResults ++ [r]).filter (·.success)).length,
          failedRuns := ((storeAt tt rpt tr).completedResults ++ [r]).length -
            (((storeAt tt rpt tr).completedResults ++ [r]).filter (·.success)).length,
          totalTokens :=
            (((storeAt tt rpt tr).completedResults ++ [r]).map (·.tokenUsage.total)).sum } := by
  rw [storeAt_append]; rfl

theorem store_batchComplete (tt rpt : Nat) (tr : List Event) (rs : List RunResult) :
    storeAt tt rpt (tr ++ [.benchmarkComplete rs])
      = { storeAt tt rpt tr with isComplete := true } := by
  rw [storeAt_append]; rfl

/-- Preservation of the master invariant by every scheduler step.  Requires the
work items to have pairwise distinct (test, model, runIndex) keys. -/
theorem machineInv_step {n : Nat} {items : Fin n → ItemKey} {env : Fin n → ItemEnv}
    (hinj : Function.Injective items) {K tt rpt : Nat} {s s' : SysState n}
    (inv : MachineInv items env tt rpt s) (hst : Step items env K s s') :
    MachineInv items env tt rpt s' := by
  obtain ⟨tI, pM, pP, rL, roN, roM, stC, stCC, stS, stF, stT, stA, stTot, stFl, fD, fE⟩ := inv
  cases hst with
  | start i h hcap =>
    have hflag : s.completedFlag = false := by
      cases hcf : s.completedFlag
      · rfl
      · have hd := fD hcf i
        rw [h] at hd
        simp at hd
    refine ⟨?_, ?_, ?_, ?_, ?_, ?_, ?_, ?_, ?_, ?_, ?_, ?_, ?_, ?_, ?_, ?_⟩
    · intro j
      dsimp only
      by_cases hji : j = i
      · subst hji
        have ht := tI j
        rw [h] at ht
        simp only [expectedEvents] at ht
        rw [List.filter_append, ht, Function.update_same]
        simp [expectedEvents, eventKey]
      · have hkey : ¬(items i = items j) := fun hk => hji (hinj hk).symm
        rw [List.filter_append, tI j, Function.update_noteq hji]
        simp [eventKey, hkey]
    · intro j m hj
      dsimp only at hj
      by_cases hji : j = i
      · subst hji; rw [Function.update_same] at hj; simp at hj
      · rw [Function.update_noteq hji] at hj; exact pM j m hj
    · intro j m hj
      dsimp only at hj
      by_cases hji : j = i
      · subst hji; rw [Function.update_same] at hj; simp at hj
      · rw [Function.update_noteq hji] at hj; exact pP j m hj
    · dsimp only
      have hc := cntF_update s.phase phaseIsDone i Phase.running
      rw [h] at hc
      simp [phaseIsDone] at hc
      rw [hc]
      exact rL
    · dsimp only
      have hni : i ∉ s.runningOrder := fun hmem => by
        have hv := (roM i).mp hmem
        rw [h] at hv
        simp at hv
      simp [List.nodup_append, roN, hni]
    · intro j
      dsimp only
      by_cases hji : j = i
      · subst hji
        simp [Function.update_same]
      · simp [List.mem_append, Function.update_noteq hji, roM j, hji]
    · simp only [store_runStart]; exact stC
    · simp only [store_runStart]; exact stCC
    · simp only [store_runStart]; exact stS
    · simp only [store_runStart]; exact stF
    · simp only [store_runStart]; exact stT
    · simp only [store_runStart]
      rw [stA, List.map_append]
      rfl
    · simp only [store_runStart]; exact stTot
    · simp only [store_runStart]; exact stFl
    · intro hc
      have hc2 : s.completedFlag = true := hc
      rw [hflag] at hc2
      simp at hc2
    · intro hc
      have hc2 : s.completedFlag = true := hc
      rw [hflag] at hc2
      simp at hc2
  | finishOk i p h he hs =>
    have hflag : s.completedFlag = false := by
      cases hcf : s.completedFlag
      · rfl
      · have hd := fD hcf i
        rw [h] at hd
        simp at hd
    have herrB : errorPathB (env i) = false := by simp [errorPathB, he, hs]
    have htr : terminalResult (items i) (env i) = mkRunResult (items i) p :=
      terminalResult_of_okPath _ _ _ he hs
    refine ⟨?_, ?_, ?_, ?_, ?_, ?_, ?_, ?_, ?_, ?_, ?_, ?_, ?_, ?_, ?_, ?_⟩
    · intro j
      dsimp only
      by_cases hji : j = i
      · subst hji
        have ht := tI j
        rw [h] at ht
        simp only [expectedEvents] at ht
        rw [List.filter_append, ht, Function.update_same]
        simp [expectedEvents, eventKey, mkRunResult_key, herrB, htr]
      · have hkey : ¬(items i = items j) := fun hk => hji (hinj hk).symm
        rw [List.filter_append, tI j, Function.update_noteq hji]
        simp [eventKey, mkRunResult_key, hkey]
    · intro j m hj
      dsimp only at hj
      by_cases hji : j = i
      · subst hji; rw [Function.update_same] at hj; simp at hj
      · rw [Function.update_noteq hji] at hj; exact pM j m hj
    · intro j m hj
      dsimp only at hj
      by_cases hji : j = i
      · subst hji; rw [Function.update_same] at hj; simp at hj
      · rw [Function.update_noteq hji] at hj; exact pP j m hj
    · dsimp only
      have hc := cntF_update s.phase phaseIsDone i Phase.done
      rw [h] at hc
      simp [phaseIsDone] at hc
      simp [List.length_append, rL, hc]
    · exact roN.erase i
    · intro j
      dsimp only
      by_cases hji : j = i
      · subst hji
        simp [Function.update_same, roN.mem_erase_iff]
      · simp [roN.mem_erase_iff, Function.update_noteq hji, roM j, hji]
    · simp only [store_complete]
      rw [stC]
    · simp only [store_complete]
      rw [stC]
    · simp only [store_complete]
      rw [stC]
    · simp only [store_complete]
      rw [stC]
    · simp only [store_complete]
      rw [stC]
    · simp only [store_complete]
      rw [stA, filter_map_comm, erase_eq_filter_ne _ roN i]
      congr 1
      refine List.filter_congr fun j hj => ?_
      rw [activeMatch_eq (items j) (mkRunResult (items i) p), mkRunResult_key]
      have hd : decide (items j = items i) = decide (j = i) :=
        decide_eq_decide.mpr ⟨fun hk => hinj hk, fun hk => hk ▸ rfl⟩
      rw [hd]
    · simp only [store_complete]; exact stTot
    · simp only [store_complete]; exact stFl
    · intro hc
      have hc2 : s.completedFlag = true := hc
      rw [hflag] at hc2
      simp at hc2
    · intro hc
      have hc2 : s.completedFlag = true := hc
      rw [hflag] at hc2
      simp at hc2
  | execErr i m h he =>
    have hflag : s.completedFlag = false := by
      cases hcf : s.completedFlag
      · rfl
      · have hd := fD hcf i
        rw [h] at hd
        simp at hd
    refine ⟨?_, ?_, ?_, ?_, ?_, ?_, ?_, ?_, ?_, ?_, ?_, ?_, ?_, ?_, ?_, ?_⟩
    · intro j
      dsimp only
      by_cases hji : j = i
      · subst hji
        have ht := tI j
        rw [h] at ht
        simp only [expectedEvents] at ht
        rw [List.filter_append, ht, Function.update_same]
        simp [expectedEvents, eventKey]
      · have hkey : ¬(items i = items j) := fun hk => hji (hinj hk).symm
        rw [List.filter_append, tI j, Function.update_noteq hji]
        simp [eventKey, hkey]
    · intro j m' hj
      dsimp only at hj
      by_cases hji : j = i
      · subst hji
        rw [Function.update_same] at hj
        cases hj
        simp [errMsgOf, he]
      · rw [Function.update_noteq hji] at hj; exact pM j m' hj
    · intro j m' hj
      dsimp only at hj
      by_cases hji : j = i
      · subst hji
        simp [errorPathB, he]
      · rw [Function.update_noteq hji] at hj; exact pP j m' hj
    · dsimp only
      have hc := cntF_update s.phase phaseIsDone i (Phase.erroredPending m)
      rw [h] at hc
      simp [phaseIsDone] at hc
      rw [hc]
      exact rL
    · exact roN.erase i
    · intro j
      dsimp only
      by_cases hji : j = i
      · subst hji
        simp [Function.update_same, roN.mem_erase_iff]
      · simp [roN.mem_erase_iff, Function.update_noteq hji, roM j, hji]
    · simp only [store_runError]; exact stC
    · simp only [store_runError]; exact stCC
    · simp only [store_runError]; exact stS
    · simp only [store_runError]; exact stF
    · simp only [store_runError]; exact stT
    · simp only [store_runError]
      rw [stA, filter_map_comm, erase_eq_filter_ne _ roN i]
      congr 1
      refine List.filter_congr fun j hj => ?_
      rw [activeMatchKey_eq (items j) (items i)]
      have hd : decide (items j = items i) = decide (j = i) :=
        decide_eq_decide.mpr ⟨fun hk => hinj hk, fun hk => hk ▸ rfl⟩
      rw [hd]
    · simp only [store_runError]; exact stTot
    · simp only [store_runError]; exact stFl
    · intro hc
      have hc2 : s.completedFlag = true := hc
      rw [hflag] at hc2
      simp at hc2
    · intro hc
      have hc2 : s.completedFlag = true := hc
      rw [hflag] at hc2
      simp at hc2
  | save1Err i p h he hs =>
    have hflag : s.completedFlag = false := by
      cases hcf : s.completedFlag
      · rfl
      · have hd := fD hcf i
        rw [h] at hd
        simp at hd
    refine ⟨?_, ?_, ?_, ?_, ?_, ?_, ?_, ?_, ?_, ?_, ?_, ?_, ?_, ?_, ?_, ?_⟩
    · intro j
      dsimp only
      by_cases hji : j = i
      · subst hji
        have ht := tI j
        rw [h] at ht
        simp only [expectedEvents] at ht
        rw [List.filter_append, ht, Function.update_same]
        simp [expectedEvents, eventKey]
      · have hkey : ¬(items i = items j) := fun hk => hji (hinj hk).symm
        rw [List.filter_append, tI j, Function.update_noteq hji]
        simp [eventKey, hkey]
    · intro j m' hj
      dsimp only at hj
      by_cases hji : j = i
      · subst hji
        rw [Function.update_same] at hj
        cases hj
        simp [errMsgOf, he]
      · rw [Function.update_noteq hji] at hj; exact pM j m' hj
    · intro j m' hj
      dsimp only at hj
      by_cases hji : j = i
      · subst hji
        simp [errorPathB, he, hs]
      · rw [Function.update_noteq hji] at hj; exact pP j m' hj
    · dsimp only
      have hc := cntF_update s.phase phaseIsDone i (Phase.erroredPending (env i).save1ErrMsg)
      rw [h] at hc
      simp [phaseIsDone] at hc
      rw [hc]
      exact rL
    · exact roN.erase i
    · intro j
      dsimp only
      by_cases hji : j = i
      · subst hji
        simp [Function.update_same, roN.mem_erase_iff]
      · simp [roN.mem_erase_iff, Function.update_noteq hji, roM j, hji]
    · simp only [store_runError]; exact stC
    · simp only [store_runError]; exact stCC
    · simp only [store_runError]; exact stS
    · simp only [store_runError]; exact stF
    · simp only [store_runError]; exact stT
    · simp only [store_runError]
      rw [stA, filter_map_comm, erase_eq_filter_ne _ roN i]
      congr 1
      refine List.filter_congr fun j hj => ?_
      rw [activeMatchKey_eq (items j) (items i)]
      have hd : decide (items j = items i) = decide (j = i) :=
        decide_eq_decide.mpr ⟨fun hk => hinj hk, fun hk => hk ▸ rfl⟩
      rw [hd]
    · simp only [store_runError]; exact stTot
    · simp only [store_runError]; exact stFl
    · intro hc
      have hc2 : s.completedFlag = true := hc
      rw [hflag] at hc2
      simp at hc2
    · intro hc
      have hc2 : s.completedFlag = true := hc
      rw [hflag] at hc2
      simp at hc2
  | finishErr i m h hs =>
    have hflag : s.completedFlag = false := by
      cases hcf : s.completedFlag
      · rfl
      · have hd := fD hcf i
        rw [h] at hd
        simp at hd
    have hmsg : m = errMsgOf (env i) := pM i m h
    have herrB : errorPathB (env i) = true := pP i m h
    have htr : terminalResult (items i) (env i)
        = failedRunResult (items i) m (env i).errTimestamp (env i).errDurationMs := by
      rw [terminalResult_of_errorPath _ _ herrB, ← hmsg]
    have hni : i ∉ s.runningOrder := fun hmem => by
      have hv := (roM i).mp hmem
      rw [h] at hv
      simp at hv
    refine ⟨?_, ?_, ?_, ?_, ?_, ?_, ?_, ?_, ?_, ?_, ?_, ?_, ?_, ?_, ?_, ?_⟩
    · intro j
      dsimp only
      by_cases hji : j = i
      · subst hji
        have ht := tI j
        rw [h] at ht
        simp only [expectedEvents] at ht
        rw [List.filter_append, ht, Function.update_same]
        simp [expectedEvents, eventKey, failedRunResult_key, herrB, htr, hmsg]
      · have hkey : ¬(items i = items j) := fun hk => hji (hinj hk).symm
        rw [List.filter_append, tI j, Function.update_noteq hji]
        simp [eventKey, failedRunResult_key, hkey]
    · intro j m' hj
      dsimp only at hj
      by_cases hji : j = i
      · subst hji; rw [Function.update_same] at hj; simp at hj
      · rw [Function.update_noteq hji] at hj; exact pM j m' hj
    · intro j m' hj
      dsimp only at hj
      by_cases hji : j = i
      · subst hji; rw [Function.update_same] at hj; simp at hj
      · rw [Function.update_noteq hji] at hj; exact pP j m' hj
    · dsimp only
      have hc := cntF_update s.phase phaseIsDone i Phase.done
      rw [h] at hc
      simp [phaseIsDone] at hc
      simp [List.length_append, rL, hc]
    · exact roN
    · intro j
      dsimp only
      by_cases hji : j = i
      · subst hji
        have hnj : j ∉ s.runningOrder := hni
        simp [Function.update_same, hnj]
      · simp [Function.update_noteq hji, roM j]
    · simp only [store_complete]
      rw [stC]
    · simp only [store_complete]
      rw [stC]
    · simp only [store_complete]
      rw [stC]
    · simp only [store_complete]
      rw [stC]
    · simp only [store_complete]
      rw [stC]
    · simp only [store_complete]
      rw [stA, filter_map_comm]
      congr 1
      refine List.filter_eq_self.mpr fun j hj => ?_
      rw [activeMatch_eq (items j) _, failedRunResult_key]
      have hjr : s.phase j = .running := (roM j).mp hj
      have hjne : j ≠ i := fun hji => by
        rw [hji, h] at hjr
        simp at hjr
      have hne : ¬(items j = items i) := fun hk => hjne (hinj hk)
      simp [hne]
    · simp only [store_complete]; exact stTot
    · simp only [store_complete]; exact stFl
    · intro hc
      have hc2 : s.completedFlag = true := hc
      rw [hflag] at hc2
      simp at hc2
    · intro hc
      have hc2 : s.completedFlag = true := hc
      rw [hflag] at hc2
      simp at hc2
  | save2Err i m h hs =>
    have hflag : s.completedFlag = false := by
      cases hcf : s.completedFlag
      · rfl
      · have hd := fD hcf i
        rw [h] at hd
        simp at hd
    have hmsg : m = errMsgOf (env i) := pM i m h
    have hni : i ∉ s.runningOrder := fun hmem => by
      have hv := (roM i).mp hmem
      rw [h] at hv
      simp at hv
    refine ⟨?_, ?_, ?_, ?_, ?_, ?_, ?_, ?_, ?_, ?_, ?_, ?_, ?_, ?_, ?_, ?_⟩
    · intro j
      dsimp only
      by_cases hji : j = i
      · subst hji
        have ht := tI j
        rw [h] at ht
        simp only [expectedEvents] at ht
        rw [Function.update_same, ht]
        simp [expectedEvents, hmsg]
      · rw [Function.update_noteq hji]
        exact tI j
    · intro j m' hj
      dsimp only at hj
      by_cases hji : j = i
      · subst hji; rw [Function.update_same] at hj; simp at hj
      · rw [Function.update_noteq hji] at hj; exact pM j m' hj
    · intro j m' hj
      dsimp only at hj
      by_cases hji : j = i
      · subst hji; rw [Function.update_same] at hj; simp at hj
      · rw [Function.update_noteq hji] at hj; exact pP j m' hj
    · dsimp only
      have hc := cntF_update s.phase phaseIsDone i Phase.thrownOut
      rw [h] at hc
      simp [phaseIsDone] at hc
      rw [hc]
      exact rL
    · exact roN
    · intro j
      dsimp only
      by_cases hji : j = i
      · subst hji
        have hnj : j ∉ s.runningOrder := hni
        simp [Function.update_same, hnj]
      · simp [Function.update_noteq hji, roM j]
    · exact stC
    · exact stCC
    · exact stS
    · exact stF
    · exact stT
    · exact stA
    · exact stTot
    · exact stFl
    · intro hc
      have hc2 : s.completedFlag = true := hc
      rw [hflag] at hc2
      simp at hc2
    · intro hc
      have hc2 : s.completedFlag = true := hc
      rw [hflag] at hc2
      simp at hc2
  | finishBatch h hf =>
    refine ⟨?_, ?_, ?_, ?_, ?_, ?_, ?_, ?_, ?_, ?_, ?_, ?_, ?_, ?_, ?_, ?_⟩
    · intro j
      dsimp only
      rw [List.filter_append, tI j]
      simp [eventKey]
    · exact pM
    · exact pP
    · exact rL
    · exact roN
    · exact roM
    · simp only [store_batchComplete]; exact stC
    · simp only [store_batchComplete]; exact stCC
    · simp only [store_batchComplete]; exact stS
    · simp only [store_batchComplete]; exact stF
    · simp only [store_batchComplete]; exact stT
    · simp only [store_batchComplete]; exact stA
    · simp only [store_batchComplete]; exact stTot
    · simp only [store_batchComplete]
    · intro _
      exact h
    · intro _
      exact List.mem_append_right _ (List.mem_singleton_self _)

/-- Every reachable state satisfies the master invariant. -/
theorem machineInv_reachable {n : Nat} {items : Fin n → ItemKey} {env : Fin n → ItemEnv}
    (hinj : Function.Injective items) {K tt rpt : Nat} {s : SysState n}
    (h : Reachable items env K tt rpt s) : MachineInv items env tt rpt s := by
  induction h with
  | refl => exact machineInv_init items env K tt rpt
  | tail _ hst ih => exact machineInv_step hinj ih hst

/-! ### Concurrency bound, event ordering, progress and termination -/

/-- The `pLimit` bound: no reachable state has more than `K` items inside
`executeRun`. -/
theorem limiterCount_le {n : Nat} {items : Fin n → ItemKey} {env : Fin n → ItemEnv}
    {K tt rpt : Nat} {s : SysState n}
    (h : Reachable items env K tt rpt s) : limiterCount s ≤ K := by
  induction h with
  | refl => simp [initState, limiterCount, cntF, phaseInFlight, List.countP_eq_zero]
  | @tail s s' hr hst ih =>
    cases hst with
    | start i hph hcap =>
      show cntF (Function.update s.phase i Phase.running) phaseInFlight ≤ K
      have hc := cntF_update s.phase phaseInFlight i Phase.running
      rw [hph] at hc
      simp [phaseInFlight] at hc
      simp only [limiterCount] at hcap
      omega
    | finishOk i p hph he hs =>
      show cntF (Function.update s.phase i Phase.done) phaseInFlight ≤ K
      have hc := cntF_update s.phase phaseInFlight i Phase.done
      rw [hph] at hc
      simp [phaseInFlight] at hc
      simp only [limiterCount] at ih
      omega
    | execErr i m hph he =>
      show cntF (Function.update s.phase i (Phase.erroredPending m)) phaseInFlight ≤ K
      have hc := cntF_update s.phase phaseInFlight i (Phase.erroredPending m)
      rw [hph] at hc
      simp [phaseInFlight] at hc
      simp only [limiterCount] at ih
      omega
    | save1Err i p hph he hs =>
      show cntF (Function.update s.phase i (Phase.erroredPending (env i).save1ErrMsg))
        phaseInFlight ≤ K
      have hc := cntF_update s.phase phaseInFlight i (Phase.erroredPending (env i).save1ErrMsg)
      rw [hph] at hc
      simp [phaseInFlight] at hc
      simp only [limiterCount] at ih
      omega
    | finishErr i m hph hs =>
      show cntF (Function.update s.phase i Phase.done) phaseInFlight ≤ K
      have hc := cntF_update s.phase phaseInFlight i Phase.done
      rw [hph] at hc
      simp [phaseInFlight] at hc
      simp only [limiterCount] at ih
      omega
    | save2Err i m hph hs =>
      show cntF (Function.update s.phase i Phase.thrownOut) phaseInFlight ≤ K
      have hc := cntF_update s.phase phaseInFlight i Phase.thrownOut
      rw [hph] at hc
      simp [phaseInFlight] at hc
      simp only [limiterCount] at ih
      omega
    | finishBatch hdone hf =>
      exact ih

/-- Persist-before-notify: whenever a `run:complete` event occurs in a trace,
the completion of the `saveRunResult` for the very same result occurs strictly
earlier. -/
def SavedBefore (tr : List Event) : Prop :=
  ∀ p q r, tr = p ++ Event.runComplete r :: q → Event.saveEvt r ∈ p

theorem savedBefore_append_chunk (tr c : List Event) (h : SavedBefore tr)
    (hc : c = [] ∨ (∃ k, c = [Event.runStart k]) ∨ (∃ k m, c = [Event.runError k m]) ∨
      (∃ r0, c = [Event.saveEvt r0, Event.runComplete r0]) ∨
      (∃ rs, c = [Event.benchmarkComplete rs])) :
    SavedBefore (tr ++ c) := by
  intro p q r hpq
  rcases List.append_eq_append_iff.mp hpq with ⟨a, ha1, ha2⟩ | ⟨a, ha1, ha2⟩
  · -- p = tr ++ a and c = a ++ complete :: q: the complete event sits in the chunk
    rcases hc with rfl | ⟨k, rfl⟩ | ⟨k, m, rfl⟩ | ⟨r0, rfl⟩ | ⟨rs, rfl⟩
    · exact absurd ha2.symm (List.append_ne_nil_of_right_ne_nil _ (List.cons_ne_nil _ _))
    · rcases a with _ | ⟨x, a⟩ <;> simp at ha2
    · rcases a with _ | ⟨x, a⟩ <;> simp at ha2
    · rcases a with _ | ⟨x, _ | ⟨y, a⟩⟩
      · simp at ha2
      · simp at ha2
        rw [ha1, ← ha2.1, ha2.2.1]
        exact List.mem_append_right _ (List.mem_singleton_self _)
      · simp at ha2
    · rcases a with _ | ⟨x, a⟩ <;> simp at ha2
  · -- tr = p ++ a and complete :: q = a ++ c: the complete event sits inside tr
    rcases a with _ | ⟨x, a⟩
    · -- then the chunk starts with the complete event: impossible for every shape
      rw [List.nil_append] at ha2
      rcases hc with rfl | ⟨k, rfl⟩ | ⟨k, m, rfl⟩ | ⟨r0, rfl⟩ | ⟨rs, rfl⟩ <;> simp at ha2
    · rw [List.cons_append] at ha2
      injection ha2 with hx htail
      exact h p a r (by rw [ha1, ← hx])

theorem savedBefore_reachable {n : Nat} {items : Fin n → ItemKey} {env : Fin n → ItemEnv}
    {K tt rpt : Nat} {s : SysState n}
    (h : Reachable items env K tt rpt s) : SavedBefore s.trace := by
  induction h with
  | refl =>
    intro p q r hpq
    rcases p with _ | ⟨x, p⟩ <;> simp [initState] at hpq
  | @tail s s' hr hst ih =>
    cases hst with
    | start i hph hcap =>
      exact savedBefore_append_chunk _ _ ih (Or.inr (Or.inl ⟨_, rfl⟩))
    | finishOk i p hph he hs =>
      exact savedBefore_append_chunk _ _ ih
        (Or.inr (Or.inr (Or.inr (Or.inl ⟨_, rfl⟩))))
    | execErr i m hph he =>
      exact savedBefore_append_chunk _ _ ih (Or.inr (Or.inr (Or.inl ⟨_, _, rfl⟩)))
    | save1Err i p hph he hs =>
      exact savedBefore_append_chunk _ _ ih (Or.inr (Or.inr (Or.inl ⟨_, _, rfl⟩)))
    | finishErr i m hph hs =>
      exact savedBefore_append_chunk _ _ ih
        (Or.inr (Or.inr (Or.inr (Or.inl ⟨_, rfl⟩))))
    | save2Err i m hph hs =>
      exact ih
    | finishBatch hdone hf =>
      exact savedBefore_append_chunk _ _ ih
        (Or.inr (Or.inr (Or.inr (Or.inr ⟨_, rfl⟩))))

/-- When every catch-path save succeeds, no item ever ends in the uncaught-throw
phase. -/
theorem no_thrownOut {n : Nat} {items : Fin n → ItemKey} {env : Fin n → ItemEnv}
    {K tt rpt : Nat} {s : SysState n}
    (h : Reachable items env K tt rpt s) (hsave2 : ∀ i, (env i).save2Ok = true) :
    ∀ i, s.phase i ≠ .thrownOut := by
  induction h with
  | refl =>
    intro i hph
    simp [initState] at hph
  | @tail s s' hr hst ih =>
    intro j hph
    cases hst with
    | start i hp hcap =>
      dsimp only at hph
      by_cases hji : j = i
      · subst hji; rw [Function.update_same] at hph; simp at hph
      · rw [Function.update_noteq hji] at hph; exact ih j hph
    | finishOk i p hp he hs =>
      dsimp only at hph
      by_cases hji : j = i
      · subst hji; rw [Function.update_same] at hph; simp at hph
      · rw [Function.update_noteq hji] at hph; exact ih j hph
    | execErr i m hp he =>
      dsimp only at hph
      by_cases hji : j = i
      · subst hji; rw [Function.update_same] at hph; simp at hph
      · rw [Function.update_noteq hji] at hph; exact ih j hph
    | save1Err i p hp he hs =>
      dsimp only at hph
      by_cases hji : j = i
      · subst hji; rw [Function.update_same] at hph; simp at hph
      · rw [Function.update_noteq hji] at hph; exact ih j hph
    | finishErr i m hp hs =>
      dsimp only at hph
      by_cases hji : j = i
      · subst hji; rw [Function.update_same] at hph; simp at hph
      · rw [Function.update_noteq hji] at hph; exact ih j hph
    | save2Err i m hp hs =>
      rw [hsave2 i] at hs
      simp at hs
    | finishBatch hdone hf =>
      exact ih j hph

/-- Progress: when `parallelLimit ≥ 1` and every catch-path save succeeds, a
reachable state that has not yet emitted `benchmark:complete` always has an
enabled step — the batch can never get stuck. -/
theorem step_exists {n : Nat} {items : Fin n → ItemKey} {env : Fin n → ItemEnv}
    {K tt rpt : Nat} (hK : 1 ≤ K) (hsave2 : ∀ i, (env i).save2Ok = true)
    {s : SysState n} (hr : Reachable items env K tt rpt s)
    (hflag : s.completedFlag = false) : ∃ s', Step items env K s s' := by
  by_cases hrun : ∃ i, s.phase i = .running
  · obtain ⟨i, hi⟩ := hrun
    cases he : (env i).exec with
    | ok p =>
      cases hsv : (env i).save1Ok
      · exact ⟨_, .save1Err s i p hi he hsv⟩
      · exact ⟨_, .finishOk s i p hi he hsv⟩
    | error m => exact ⟨_, .execErr s i m hi he⟩
  · by_cases hpend : ∃ i m, s.phase i = .erroredPending m
    · obtain ⟨i, m, hi⟩ := hpend
      exact ⟨_, .finishErr s i m hi (hsave2 i)⟩
    · by_cases hns : ∃ i, s.phase i = .notStarted
      · obtain ⟨i, hi⟩ := hns
        have hcap : limiterCount s = 0 := by
          rw [limiterCount, cntF, List.countP_eq_zero]
          intro j _
          cases hph : s.phase j <;> simp [phaseInFlight]
          · exact absurd ⟨j, hph⟩ hrun
          · next m => exact absurd ⟨j, m, hph⟩ hpend
        exact ⟨_, .start s i hi (by rw [hcap]; exact hK)⟩
      · have hdone : ∀ i, s.phase i = .done := by
          intro i
          cases hph : s.phase i
          · exact absurd ⟨i, hph⟩ hns
          · exact absurd ⟨i, hph⟩ hrun
          · next m => exact absurd ⟨i, m, hph⟩ hpend
          · rfl
          · exact absurd hph (no_thrownOut hr hsave2 i)
        exact ⟨_, .finishBatch s hdone hflag⟩

/-- Weight of a phase: how many steps the item still owes. -/
def phaseWeight : Phase → Nat
  | .notStarted => 3
  | .running => 2
  | .erroredPending _ => 1
  | .done => 0
  | .thrownOut => 0

/-- Termination measure: total remaining work plus the pending batch event. -/
def measureOf {n : Nat} (s : SysState n) : Nat :=
  (∑ i : Fin n, phaseWeight (s.phase i)) + (if s.completedFlag then 0 else 1)

theorem sum_phaseWeight_update {n : Nat} (f : Fin n → Phase) (i : Fin n) (v : Phase) :
    (∑ j : Fin n, phaseWeight (Function.update f i v j))
      = phaseWeight v + ∑ j in Finset.univ.erase i, phaseWeight (f j) := by
  have hfun : (fun j => phaseWeight (Function.update f i v j))
      = Function.update (fun j => phaseWeight (f j)) i (phaseWeight v) := by
    funext j
    by_cases hji : j = i
    · subst hji; rw [Function.update_same, Function.update_same]
    · rw [Function.update_noteq hji, Function.update_noteq hji]
  rw [hfun, Finset.sum_update_of_mem (Finset.mem_univ i), Finset.erase_eq]

theorem sum_phaseWeight_split {n : Nat} (f : Fin n → Phase) (i : Fin n) :
    (∑ j : Fin n, phaseWeight (f j))
      = phaseWeight (f i) + ∑ j in Finset.univ.erase i, phaseWeight (f j) :=
  (Finset.add_sum_erase _ _ (Finset.mem_univ i)).symm

/-- Every step strictly decreases the measure: the batch always terminates. -/
theorem step_measure_lt {n : Nat} {items : Fin n → ItemKey} {env : Fin n → ItemEnv}
    {K : Nat} {s s' : SysState n} (hst : Step items env K s s') :
    measureOf s' < measureOf s := by
  cases hst with
  | start i h hcap =>
    show (∑ j : Fin n, phaseWeight (Function.update s.phase i Phase.running j)) +
      (if s.completedFlag then 0 else 1) < _
    rw [sum_phaseWeight_update]
    unfold measureOf
    rw [sum_phaseWeight_split s.phase i, h]
    simp [phaseWeight]
  | finishOk i p h he hs =>
    show (∑ j : Fin n, phaseWeight (Function.update s.phase i Phase.done j)) +
      (if s.completedFlag then 0 else 1) < _
    rw [sum_phaseWeight_update]
    unfold measureOf
    rw [sum_phaseWeight_split s.phase i, h]
    simp [phaseWeight]
  | execErr i m h he =>
    show (∑ j : Fin n, phaseWeight (Function.update s.phase i (Phase.erroredPending m) j)) +
      (if s.completedFlag then 0 else 1) < _
    rw [sum_phaseWeight_update]
    unfold measureOf
    rw [sum_phaseWeight_split s.phase i, h]
    simp [phaseWeight]
  | save1Err i p h he hs =>
    show (∑ j : Fin n,
        phaseWeight (Function.update s.phase i (Phase.erroredPending (env i).save1ErrMsg) j)) +
      (if s.completedFlag then 0 else 1) < _
    rw [sum_phaseWeight_update]
    unfold measureOf
    rw [sum_phaseWeight_split s.phase i, h]
    simp [phaseWeight]
  | finishErr i m h hs =>
    show (∑ j : Fin n, phaseWeight (Function.update s.phase i Phase.done j)) +
      (if s.completedFlag then 0 else 1) < _
    rw [sum_phaseWeight_update]
    unfold measureOf
    rw [sum_phaseWeight_split s.phase i, h]
    simp [phaseWeight]
  | save2Err i m h hs =>
    show (∑ j : Fin n, phaseWeight (Function.update s.phase i Phase.thrownOut j)) +
      (if s.completedFlag then 0 else 1) < _
    rw [sum_phaseWeight_update]
    unfold measureOf
    rw [sum_phaseWeight_split s.phase i, h]
    simp [phaseWeight]
  | finishBatch h hf =>
    unfold measureOf
    rw [hf]
    simp

/-- The work matrix has exactly models × tests × runsPerTest entries. -/
theorem workMatrix_length (models tests : List String) (runsPerTest : Nat) :
    (workMatrix models tests runsPerTest).length
      = models.length * tests.length * runsPerTest := by
  have inner : ∀ m : String,
      ((tests.flatMap fun t => (List.range runsPerTest).map
        fun ri => (⟨t, m, ri⟩ : ItemKey))).length = tests.length * runsPerTest := by
    intro m
    induction tests with
    | nil => simp
    | cons t ts ih => simp [ih, Nat.succ_mul, Nat.add_comm]
  unfold workMatrix
  induction models with
  | nil => simp
  | cons m ms ih => simp [inner, ih, Nat.succ_mul, Nat.add_comm, Nat.add_mul]

/-! ### Derived counting helpers -/

theorem cntF_done_of_all {n : Nat} (f : Fin n → Phase) (h : ∀ i, f i = .done) :
    cntF f phaseIsDone = n :=
  (List.countP_eq_length.mpr fun a _ => by rw [h a]; rfl).trans (List.length_finRange n)

theorem nodup_mem_length_eq_cnt {n : Nat} (l : List (Fin n)) (hnd : l.Nodup)
    (p : Fin n → Bool) (hmem : ∀ j, j ∈ l ↔ p j = true) :
    l.length = (List.finRange n).countP p := by
  have hperm : List.Perm l ((List.finRange n).filter p) := by
    refine (List.perm_ext_iff_of_nodup hnd ((List.nodup_finRange n).filter p)).mpr ?_
    intro a
    rw [List.mem_filter]
    constructor
    · intro ha
      exact ⟨List.mem_finRange a, (hmem a).mp ha⟩
    · rintro ⟨-, hp⟩
      exact (hmem a).mpr hp
  rw [hperm.length_eq, List.countP_eq_length_filter]

def Event.isRunComplete : Event → Bool
  | .runComplete _ => true
  | _ => false

def Event.isSave : Event → Bool
  | .saveEvt _ => true
  | _ => false

/-! ## Claim theorems over the scheduler machine -/

/-- C1: for a batch over M models, T tests and R runs per test (N = M·T·R work
items, pairwise distinct keys), once the batch has completed
(`benchmark:complete` emitted), the runner has produced and returned exactly N
terminal `RunResult`s — one `run:complete` and one completed `saveRunResult`
per work item, and the `benchmark:complete` payload is exactly that results
list.  No item is left without a terminal outcome: every item's phase is `done`
when the flag is set, which the completion count reflects. -/
theorem claim_c1_exact_results
    (models tests : List String) (runsPerTest : Nat) {K tt rpt : Nat}
    {env : Fin (workMatrix models tests runsPerTest).length → ItemEnv}
    (hinj : Function.Injective fun i : Fin (workMatrix models tests runsPerTest).length =>
      (workMatrix models tests runsPerTest).get i)
    {s : SysState (workMatrix models tests runsPerTest).length}
    (hreach : Reachable (fun i => (workMatrix models tests runsPerTest).get i) env K tt rpt s)
    (hflag : s.completedFlag = true) :
    (workMatrix models tests runsPerTest).length = models.length * tests.length * runsPerTest
    ∧ s.results.length = (workMatrix models tests runsPerTest).length
    ∧ (∀ i, ((s.trace.filter fun e =>
        decide (eventKey e = some ((workMatrix models tests runsPerTest).get i))).countP
          Event.isRunComplete) = 1)
    ∧ (∀ i, ((s.trace.filter fun e =>
        decide (eventKey e = some ((workMatrix models tests runsPerTest).get i))).countP
          Event.isSave) = 1)
    ∧ Event.benchmarkComplete s.results ∈ s.trace := by
  have inv := machineInv_reachable hinj hreach
  have hdone := inv.flag_done hflag
  refine ⟨workMatrix_length models tests runsPerTest, ?_, ?_, ?_, inv.flag_evt hflag⟩
  · rw [inv.results_len, cntF_done_of_all _ hdone]
  · intro i
    have ht := inv.trace_item i
    rw [hdone i] at ht
    rw [ht]
    cases hE : errorPathB (env i) <;>
      simp [expectedEvents, hE, Event.isRunComplete, List.countP_cons]
  · intro i
    have ht := inv.trace_item i
    rw [hdone i] at ht
    rw [ht]
    cases hE : errorPathB (env i) <;>
      simp [expectedEvents, hE, Event.isSave, List.countP_cons]

/-- C2: in every reachable trace, whenever a `run:complete` event occurs, the
completion of the `saveRunResult` for that very result occurs strictly before
it — on the success path and on the error path alike — so an observer reacting
to `run:complete` may assume the result is already durable. -/
theorem claim_c2_persist_before_notify {n : Nat} {items : Fin n → ItemKey}
    {env : Fin n → ItemEnv} {K tt rpt : Nat} {s : SysState n}
    (hreach : Reachable items env K tt rpt s) :
    ∀ p q r, s.trace = p ++ Event.runComplete r :: q → Event.saveEvt r ∈ p :=
  savedBefore_reachable hreach

/-- C4: with `parallelLimit = K` (1 ≤ K ≤ N), at every reachable instant the
number of work items inside `executeRun` — between their `run:start` event and
their terminal event — never exceeds K. -/
theorem claim_c4_bounded_concurrency {n : Nat} {items : Fin n → ItemKey}
    {env : Fin n → ItemEnv} {K tt rpt : Nat} (hK1 : 1 ≤ K) (hKn : K ≤ n)
    {s : SysState n} (hreach : Reachable items env K tt rpt s) :
    limiterCount s ≤ K :=
  limiterCount_le hreach

/-- C5: a work item whose execute path throws (or times out) and whose
`executeRun` returned normally has, in the trace, both a `run:error` event and a
`run:complete` event; the `run:complete` payload is the synthesized failure
result with `success = false`, zero token usage and the reason carrying the
error message, and it was saved. -/
theorem claim_c5_error_terminalization {n : Nat} {items : Fin n → ItemKey}
    {env : Fin n → ItemEnv} (hinj : Function.Injective items) {K tt rpt : Nat}
    {s : SysState n} (hreach : Reachable items env K tt rpt s) (i : Fin n) (m : String)
    (hexec : (env i).exec = .error m) (hdone : s.phase i = .done) :
    Event.runError (items i) m ∈ s.trace
    ∧ Event.runComplete
        (failedRunResult (items i) m (env i).errTimestamp (env i).errDurationMs) ∈ s.trace
    ∧ Event.saveEvt
        (failedRunResult (items i) m (env i).errTimestamp (env i).errDurationMs) ∈ s.trace
    ∧ (failedRunResult (items i) m (env i).errTimestamp (env i).errDurationMs).success = false
    ∧ (failedRunResult (items i) m (env i).errTimestamp (env i).errDurationMs).tokenUsage
        = ⟨0, 0, none, 0⟩
    ∧ (failedRunResult (items i) m (env i).errTimestamp (env i).errDurationMs).reason
        = "Error: " ++ m := by
  have inv := machineInv_reachable hinj hreach
  have ht := inv.trace_item i
  rw [hdone] at ht
  have hE : errorPathB (env i) = true := by simp [errorPathB, hexec]
  have hmsg : errMsgOf (env i) = m := by simp [errMsgOf, hexec]
  simp only [expectedEvents, hE, if_true] at ht
  rw [terminalResult_of_errorPath _ _ hE, hmsg] at ht
  refine ⟨?_, ?_, ?_, rfl, rfl, rfl⟩
  · refine List.mem_of_mem_filter (p := fun e => decide (eventKey e = some (items i))) ?_
    rw [ht]
    simp
  · refine List.mem_of_mem_filter (p := fun e => decide (eventKey e = some (items i))) ?_
    rw [ht]
    simp
  · refine List.mem_of_mem_filter (p := fun e => decide (eventKey e = some (items i))) ?_
    rw [ht]
    simp

/-- C7: in every store state reachable from any interleaving of scheduler
events, `successfulRuns + failedRuns = completedRuns`; before the
`benchmark:complete` event is processed, `completedRuns + |activeRuns| ≤
totalRuns`; and after it, `|activeRuns| = 0` and `completedRuns = totalRuns`. -/
theorem claim_c7_progress_invariants {n : Nat} {items : Fin n → ItemKey}
    {env : Fin n → ItemEnv} {K tt rpt : Nat} (hinj : Function.Injective items)
    (htotal : tt * rpt = n) {s : SysState n}
    (hreach : Reachable items env K tt rpt s) :
    (storeAt tt rpt s.trace).successfulRuns + (storeAt tt rpt s.trace).failedRuns
        = (storeAt tt rpt s.trace).completedRuns
    ∧ ((storeAt tt rpt s.trace).isComplete = false →
        (storeAt tt rpt s.trace).completedRuns + (storeAt tt rpt s.trace).activeRuns.length
          ≤ (storeAt tt rpt s.trace).totalRuns)
    ∧ ((storeAt tt rpt s.trace).isComplete = true →
        (storeAt tt rpt s.trace).activeRuns.length = 0
        ∧ (storeAt tt rpt s.trace).completedRuns = (storeAt tt rpt s.trace).totalRuns) := by
  have inv := machineInv_reachable hinj hreach
  have hsuccle : (s.results.filter (·.success)).length ≤ s.results.length :=
    List.length_filter_le _ _
  have hrolen : s.runningOrder.length = cntF s.phase phaseIsRunning := by
    refine nodup_mem_length_eq_cnt s.runningOrder inv.ro_nodup _ fun j => ?_
    rw [inv.ro_mem j]
    cases hph : s.phase j <;> simp [phaseIsRunning, hph]
  refine ⟨?_, ?_, ?_⟩
  · rw [inv.st_succ, inv.st_failed, inv.st_ccount]
    omega
  · intro _
    rw [inv.st_ccount, inv.st_active, inv.st_total, List.length_map, inv.results_len, hrolen,
      htotal]
    have hdisj := countP_disjoint_le_length
      (fun j => phaseIsDone (s.phase j)) (fun j => phaseIsRunning (s.phase j))
      (List.finRange n) ?_
    · rw [cntF, cntF]
      calc (List.finRange n).countP (fun j => phaseIsDone (s.phase j)) +
            (List.finRange n).countP (fun j => phaseIsRunning (s.phase j))
          ≤ (List.finRange n).length := hdisj
        _ = n := List.length_finRange n
    · intro a
      cases hph : s.phase a <;> simp [phaseIsDone, phaseIsRunning, hph]
  · intro hcomp
    rw [inv.st_flag] at hcomp
    have hdone := inv.flag_done hcomp
    constructor
    · rw [inv.st_active, List.length_map]
      have : s.runningOrder = [] := by
        refine List.eq_nil_iff_forall_not_mem.mpr fun j hj => ?_
        have := (inv.ro_mem j).mp hj
        rw [hdone j] at this
        simp at this
      rw [this]
      rfl
    · rw [inv.st_ccount, inv.st_total, inv.results_len, cntF_done_of_all _ hdone, htotal]

/-- C6 (amended): a durable-write failure of the primary save reroutes the item
through the catch path and is isolated — provided the catch-path save of the
synthesized failure succeeds for every item, a batch run with `parallelLimit ≥ 1`
can never get stuck (some step is always enabled until `benchmark:complete`),
every step strictly decreases a finite measure (so every maximal execution ends),
and when `benchmark:complete` has been emitted every one of the `n` items has
exactly one result in the returned list.  The unguarded catch-path save is the
sole exception, exhibited separately. -/
theorem claim_c6_save_failure_isolation {n : Nat} {items : Fin n → ItemKey}
    {env : Fin n → ItemEnv} {K tt rpt : Nat} (hinj : Function.Injective items)
    (hK : 1 ≤ K) (hsave2 : ∀ i, (env i).save2Ok = true) {s : SysState n}
    (hreach : Reachable items env K tt rpt s) :
    (s.completedFlag = false → ∃ s', Step items env K s s')
    ∧ (∀ s', Step items env K s s' → measureOf s' < measureOf s)
    ∧ (s.completedFlag = true →
        s.results.length = n ∧ Event.benchmarkComplete s.results ∈ s.trace) := by
  refine ⟨fun hf => step_exists hK hsave2 hreach hf,
    fun s' hst => step_measure_lt hst, fun hc => ⟨?_, (machineInv_reachable hinj hreach).flag_evt hc⟩⟩
  have inv := machineInv_reachable hinj hreach
  rw [inv.results_len, cntF_done_of_all _ (inv.flag_done hc)]

/-! ## Concrete batch fixtures -/

/-- A successful execute-path outcome (a judged text test). -/
def payloadW : ResultPayload :=
  ⟨"2025-01-01T00:00:00.000Z", true, "Test passed", 120, ⟨10, 5, none, 15⟩,
    .str "Tokyo", some (.obj [("success", .bool true), ("reason", .str "ok")])⟩

/-- One model × one test × one run. -/
def wmA : List ItemKey := workMatrix ["model-a"] ["test-1"] 1

def nA : Nat := wmA.length

def itemsA : Fin nA → ItemKey := fun i => wmA.get i

def iA0 : Fin nA := ⟨0, by decide⟩

def envA : Fin nA → ItemEnv :=
  fun _ => ⟨.ok payloadW, true, "", true, "2025-01-01T00:00:01.000Z", 5⟩

def rA : RunResult := mkRunResult (itemsA iA0) payloadW

def sA0 : SysState nA := initState nA 1 1

def sA1 : SysState nA :=
  { phase := Function.update sA0.phase iA0 .running,
    trace := sA0.trace ++ [.runStart (itemsA iA0)],
    results := sA0.results,
    runningOrder := sA0.runningOrder ++ [iA0],
    completedFlag := sA0.completedFlag }

def sA2 : SysState nA :=
  { phase := Function.update sA1.phase iA0 .done,
    trace := sA1.trace ++ [.saveEvt rA, .runComplete rA],
    results := sA1.results ++ [rA],
    runningOrder := sA1.runningOrder.erase iA0,
    completedFlag := sA1.completedFlag }

def sA3 : SysState nA :=
  { phase := sA2.phase,
    trace := sA2.trace ++ [.benchmarkComplete sA2.results],
    results := sA2.results,
    runningOrder := sA2.runningOrder,
    completedFlag := true }

theorem reachA1 : Reachable itemsA envA 1 1 1 sA1 :=
  .tail .refl (.start sA0 iA0 rfl (by decide))

theorem reachA2 : Reachable itemsA envA 1 1 1 sA2 :=
  .tail reachA1 (.finishOk sA1 iA0 payloadW (by decide) rfl rfl)

theorem reachA3 : Reachable itemsA envA 1 1 1 sA3 :=
  .tail reachA2 (.finishBatch sA2 (by decide) rfl)

/-- Same single-item matrix, but the remote call throws. -/
def envC : Fin nA → ItemEnv :=
  fun _ => ⟨.error "boom", true, "", true, "2025-01-01T00:00:02.000Z", 7⟩

def frC : RunResult :=
  failedRunResult (itemsA iA0) "boom" (envC iA0).errTimestamp (envC iA0).errDurationMs

def sC0 : SysState nA := initState nA 1 1

def sC1 : SysState nA :=
  { phase := Function.update sC0.phase iA0 .running,
    trace := sC0.trace ++ [.runStart (itemsA iA0)],
    results := sC0.results,
    runningOrder := sC0.runningOrder ++ [iA0],
    completedFlag := sC0.completedFlag }

def sC2 : SysState nA :=
  { phase := Function.update sC1.phase iA0 (.erroredPending "boom"),
    trace := sC1.trace ++ [.runError (itemsA iA0) "boom"],
    results := sC1.results,
    runningOrder := sC1.runningOrder.erase iA0,
    completedFlag := sC1.completedFlag }

def sC3 : SysState nA :=
  { phase := Function.update sC2.phase iA0 .done,
    trace := sC2.trace ++ [.saveEvt frC, .runComplete frC],
    results := sC2.results ++ [frC],
    runningOrder := sC2.runningOrder,
    completedFlag := sC2.completedFlag }

theorem reachC3 : Reachable itemsA envC 1 1 1 sC3 :=
  .tail (.tail (.tail .refl (.start sC0 iA0 rfl (by decide)))
      (.execErr sC1 iA0 "boom" (by decide) rfl))
    (.finishErr sC2 iA0 "boom" (by decide) rfl)

/-- One model × two tests: a two-item batch. -/
def wmB : List ItemKey := workMatrix ["model-a"] ["test-1", "test-2"] 1

def nB : Nat := wmB.length

def itemsB : Fin nB → ItemKey := fun i => wmB.get i

def iB0 : Fin nB := ⟨0, by decide⟩

def iB1 : Fin nB := ⟨1, by decide⟩

/-- Item 0's primary save fails but its catch-path save succeeds; item 1 is
healthy. -/
def envE : Fin nB → ItemEnv := fun i =>
  if i.val = 0 then ⟨.ok payloadW, false, "disk full", true, "2025-01-01T00:00:03.000Z", 3⟩
  else ⟨.ok payloadW, true, "", true, "2025-01-01T00:00:04.000Z", 0⟩

/-- Item 0's primary save fails and so does its catch-path save; item 1 is
healthy. -/
def envD : Fin nB → ItemEnv := fun i =>
  if i.val = 0 then ⟨.ok payloadW, false, "disk full", false, "2025-01-01T00:00:03.000Z", 3⟩
  else ⟨.ok payloadW, true, "", true, "2025-01-01T00:00:04.000Z", 0⟩

def rD1 : RunResult := mkRunResult (itemsB iB1) payloadW

def sD0 : SysState nB := initState nB 2 1

def sD1 : SysState nB :=
  { phase := Function.update sD0.phase iB0 .running,
    trace := sD0.trace ++ [.runStart (itemsB iB0)],
    results := sD0.results,
    runningOrder := sD0.runningOrder ++ [iB0],
    completedFlag := sD0.completedFlag }

def sD2 : SysState nB :=
  { phase := Function.update sD1.phase iB1 .running,
    trace := sD1.trace ++ [.runStart (itemsB iB1)],
    results := sD1.results,
    runningOrder := sD1.runningOrder ++ [iB1],
    completedFlag := sD1.completedFlag }

def sD3 : SysState nB :=
  { phase := Function.update sD2.phase iB0 (.erroredPending (envD iB0).save1ErrMsg),
    trace := sD2.trace ++ [.runError (itemsB iB0) (envD iB0).save1ErrMsg],
    results := sD2.results,
    runningOrder := sD2.runningOrder.erase iB0,
    completedFlag := sD2.completedFlag }

def sD4 : SysState nB :=
  { phase := Function.update sD3.phase iB1 .done,
    trace := sD3.trace ++ [.saveEvt rD1, .runComplete rD1],
    results := sD3.results ++ [rD1],
    runningOrder := sD3.runningOrder.erase iB1,
    completedFlag := sD3.completedFlag }

def sD5 : SysState nB :=
  { phase := Function.update sD4.phase iB0 .thrownOut,
    trace := sD4.trace,
    results := sD4.results,
    runningOrder := sD4.runningOrder,
    completedFlag := sD4.completedFlag }

theorem reachD5 : Reachable itemsB envD 2 2 1 sD5 :=
  .tail (.tail (.tail (.tail (.tail .refl
    (.start sD0 iB0 rfl (by decide)))
    (.start sD1 iB1 (by decide) (by decide)))
    (.save1Err sD2 iB0 payloadW (by decide) rfl rfl))
    (.finishOk sD3 iB1 payloadW (by decide) rfl rfl))
    (.save2Err sD4 iB0 "disk full" (by decide) rfl)

/-- C1 witness: the single-item batch satisfies the hypotheses of
`claim_c1_exact_results`, and its conclusion holds at the completed state. -/
theorem claim_c1_witness :
    (Function.Injective fun i : Fin (workMatrix ["model-a"] ["test-1"] 1).length =>
      (workMatrix ["model-a"] ["test-1"] 1).get i)
    ∧ sA3.completedFlag = true
    ∧ ((workMatrix ["model-a"] ["test-1"] 1).length = 1 * 1 * 1
      ∧ sA3.results.length = (workMatrix ["model-a"] ["test-1"] 1).length
      ∧ (∀ i, ((sA3.trace.filter fun e =>
          decide (eventKey e = some ((workMatrix ["model-a"] ["test-1"] 1).get i))).countP
            Event.isRunComplete) = 1)
      ∧ (∀ i, ((sA3.trace.filter fun e =>
          decide (eventKey e = some ((workMatrix ["model-a"] ["test-1"] 1).get i))).countP
            Event.isSave) = 1)
      ∧ Event.benchmarkComplete sA3.results ∈ sA3.trace) :=
  ⟨by decide, rfl, claim_c1_exact_results ["model-a"] ["test-1"] 1 (by decide) reachA3 rfl⟩

/-- C2 witness: in the completed single-item batch's trace, the save event for
the result precedes its `run:complete` event. -/
theorem claim_c2_witness :
    Reachable itemsA envA 1 1 1 sA3
    ∧ Event.saveEvt rA ∈
        [Event.benchmarkStart 1 1, Event.runStart (itemsA iA0), Event.saveEvt rA] :=
  ⟨reachA3, claim_c2_persist_before_notify reachA3
    [Event.benchmarkStart 1 1, Event.runStart (itemsA iA0), Event.saveEvt rA]
    [Event.benchmarkComplete [rA]] rA (by rfl)⟩

/-- C4 witness: with K = 1 and one dispatched item, the in-flight count is
bounded by 1. -/
theorem claim_c4_witness :
    1 ≤ 1 ∧ 1 ≤ nA ∧ Reachable itemsA envA 1 1 1 sA1 ∧ limiterCount sA1 ≤ 1 :=
  ⟨by decide, by decide, reachA1,
    claim_c4_bounded_concurrency (by decide) (by decide) reachA1⟩

/-- C5 witness: the single-item batch whose remote call throws `"boom"` emits
`run:error` and `run:complete` with the synthesized failure result. -/
theorem claim_c5_witness :
    (envC iA0).exec = .error "boom"
    ∧ sC3.phase iA0 = .done
    ∧ (Event.runError (itemsA iA0) "boom" ∈ sC3.trace
      ∧ Event.runComplete
          (failedRunResult (itemsA iA0) "boom" (envC iA0).errTimestamp
            (envC iA0).errDurationMs) ∈ sC3.trace
      ∧ Event.saveEvt
          (failedRunResult (itemsA iA0) "boom" (envC iA0).errTimestamp
            (envC iA0).errDurationMs) ∈ sC3.trace
      ∧ (failedRunResult (itemsA iA0) "boom" (envC iA0).errTimestamp
          (envC iA0).errDurationMs).success = false
      ∧ (failedRunResult (itemsA iA0) "boom" (envC iA0).errTimestamp
          (envC iA0).errDurationMs).tokenUsage = ⟨0, 0, none, 0⟩
      ∧ (failedRunResult (itemsA iA0) "boom" (envC iA0).errTimestamp
          (envC iA0).errDurationMs).reason = "Error: " ++ "boom") :=
  ⟨rfl, by decide,
    claim_c5_error_terminalization (by decide) reachC3 iA0 "boom" rfl (by decide)⟩

/-- C6 witness (for the amended claim): the two-item batch in which item 0's
primary save fails but every catch-path save succeeds satisfies the hypotheses,
and the conclusion holds at the initial state. -/
theorem claim_c6_witness :
    (1 ≤ 2) ∧ (∀ i, (envE i).save2Ok = true)
    ∧ (((initState nB 2 1).completedFlag = false →
          ∃ s', Step itemsB envE 2 (initState nB 2 1) s')
      ∧ (∀ s', Step itemsB envE 2 (initState nB 2 1) s' →
          measureOf s' < measureOf (initState nB 2 1))
      ∧ ((initState nB 2 1).completedFlag = true →
          (initState nB 2 1).results.length = nB
          ∧ Event.benchmarkComplete (initState nB 2 1).results ∈ (initState nB 2 1).trace)) :=
  ⟨by decide, by decide,
    claim_c6_save_failure_isolation (by decide) (by decide) (by decide) Reachable.refl⟩

/-- C6 counterexample: in the two-item batch in which item 0's catch-path save
also fails, the execution below is maximal (no step is enabled: `Promise.all`
has rejected), yet `benchmark:complete` was never emitted, the store never saw
completion, and only the sibling item has a terminal result — falsifying "the
batch still runs to completion of all items and emits benchmark:complete". -/
theorem claim_c6_counterexample :
    Reachable itemsB envD 2 2 1 sD5
    ∧ (¬∃ s', Step itemsB envD 2 sD5 s')
    ∧ sD5.completedFlag = false
    ∧ (storeAt 2 1 sD5.trace).isComplete = false
    ∧ sD5.results.length = 1 := by
  refine ⟨reachD5, ?_, rfl, rfl, rfl⟩
  rintro ⟨s', hst⟩
  cases hst with
  | start i h hcap =>
    have hall : ∀ i : Fin nB, ¬sD5.phase i = .notStarted := by decide
    exact hall i h
  | finishOk i p h he hs =>
    have hall : ∀ i : Fin nB, ¬sD5.phase i = .running := by decide
    exact hall i h
  | execErr i m h he =>
    have hall : ∀ i : Fin nB, ¬sD5.phase i = .running := by decide
    exact hall i h
  | save1Err i p h he hs =>
    have hall : ∀ i : Fin nB, ¬sD5.phase i = .running := by decide
    exact hall i h
  | finishErr i m h hs =>
    have hall : ∀ i : Fin nB, sD5.phase i = .thrownOut ∨ sD5.phase i = .done := by decide
    rcases hall i with hh | hh <;> rw [hh] at h <;> simp at h
  | save2Err i m h hs =>
    have hall : ∀ i : Fin nB, sD5.phase i = .thrownOut ∨ sD5.phase i = .done := by decide
    rcases hall i with hh | hh <;> rw [hh] at h <;> simp at h
  | finishBatch h hf =>
    have h0 := h iB0
    have : ¬sD5.phase iB0 = .done := by decide
    exact this h0

/-- C7 witness: the completed single-item batch satisfies the store
invariants. -/
theorem claim_c7_witness :
    (1 * 1 = nA) ∧ Reachable itemsA envA 1 1 1 sA3
    ∧ ((storeAt 1 1 sA3.trace).successfulRuns + (storeAt 1 1 sA3.trace).failedRuns
        = (storeAt 1 1 sA3.trace).completedRuns
      ∧ ((storeAt 1 1 sA3.trace).isComplete = false →
          (storeAt 1 1 sA3.trace).completedRuns + (storeAt 1 1 sA3.trace).activeRuns.length
            ≤ (storeAt 1 1 sA3.trace).totalRuns)
      ∧ ((storeAt 1 1 sA3.trace).isComplete = true →
          (storeAt 1 1 sA3.trace).activeRuns.length = 0
          ∧ (storeAt 1 1 sA3.trace).completedRuns = (storeAt 1 1 sA3.trace).totalRuns)) :=
  ⟨by decide, reachA3, claim_c7_progress_invariants (by decide) (by decide) reachA3⟩

/-! ## Persistence atomicity (C3) -/

/-- A synthesized failure result, as `executeRun` would persist it. -/
def rC3 : RunResult :=
  failedRunResult ⟨"test-1", "model-a", 0⟩ "boom" "2025-01-01T00:00:05.123Z" 42

set_option maxRecDepth 40000 in
/-- C3 at a concrete input: `saveRunResult` performs no rename at all; the
final path receives the serialized result through a plain whole-file write
(`Bun.write` of the temp file's bytes), and while that write is in flight the
final path is observable holding a strict, non-empty-content prefix (here the
first character) — a partially-written state.  This contradicts the claim (and
the code's own comment) that the temp file is renamed into the final path. -/
theorem claim_c3_final_write_not_rename :
    (∀ op ∈ (saveRunResultOps "runs/bench-2025" rC3).1, op.isRenameOp = false)
    ∧ FsWriteOp.writeWhole (saveRunResultOps "runs/bench-2025" rC3).2
        (serializeRunResult rC3) ∈ (saveRunResultOps "runs/bench-2025" rC3).1
    ∧ observableMidState
        (FsWriteOp.writeWhole (saveRunResultOps "runs/bench-2025" rC3).2
          (serializeRunResult rC3))
        (saveRunResultOps "runs/bench-2025" rC3).2
        (String.mk ((serializeRunResult rC3).data.take 1))
    ∧ String.mk ((serializeRunResult rC3).data.take 1) ≠ serializeRunResult rC3
    ∧ String.mk ((serializeRunResult rC3).data.take 1) ≠ "" := by
  refine ⟨by decide, ?_, ⟨rfl, 1, by decide, rfl⟩, by decide, by decide⟩
  exact List.Mem.tail _ (List.Mem.tail _ (List.Mem.head _))

/-! ## The schema mismatch between runner and combiner (C8) -/

/-- The first `RunResultSchema` of src/index.ts (lines 116-132) — the shape the
runner actually writes: no `type`, no `prompt`. -/
structure StoredRunResultV1 where
  testName : String
  modelName : String
  runIndex : Int
  timestamp : String
  success : Bool
  reason : String
  durationMs : Int
  tokenUsage : StoredTokenUsage
  rawOutput : Option Json
  judgeOutput : Option Json

/-- `RunResultSchema.parse` of the first schema (index.ts lines 116-132). -/
def decodeStoredRunResultV1 (j : Json) : Option StoredRunResultV1 := do
  let testName ← getStr j "testName"
  let modelName ← getStr j "modelName"
  let runIndex ← getNum j "runIndex"
  let timestamp ← getStr j "timestamp"
  let success ← getBool j "success"
  let reason ← getStr j "reason"
  let durationMs ← getNum j "durationMs"
  let tokenUsage ← (j.getField "tokenUsage").bind decodeTokenUsage
  pure ⟨testName, modelName, runIndex, timestamp, success, reason, durationMs,
    tokenUsage, j.getField "rawOutput", j.getField "judgeOutput"⟩

/-- A result the runner synthesizes and persists verbatim. -/
def rC8 : RunResult :=
  failedRunResult ⟨"basic-qa-literature", "model-a", 0⟩ "fetch failed"
    "2025-01-01T00:00:06.000Z" 12

set_option maxRecDepth 40000 in
/-- C8 at a concrete input: the serialized `RunResult` the runner writes fails
the strict `RunResultSchema` the combiner validates with (the required `type`
and `prompt` keys are absent), so `readRunFiles` skips the persisted file with
one warning and returns nothing — the round-trip does not yield the original
value.  The same serialized object decodes, equal on every field, under the
repository's first `RunResultSchema`, confirming that the runner's output
matches the older schema and the strict one is the mismatch. -/
theorem claim_c8_roundtrip_fails :
    decodeStoredRunResult (runResultToJson rC8) = none
    ∧ readRunFiles [("run0.json", .jsonText (runResultToJson rC8))] = ([], 1)
    ∧ decodeStoredRunResultV1 (runResultToJson rC8)
        = some ⟨"basic-qa-literature", "model-a", 0, "2025-01-01T00:00:06.000Z", false,
            "Error: " ++ "fetch failed", 12, ⟨0, 0, none, 0⟩,
            some (.str "\x7b\x7d"), none⟩ :=
  ⟨rfl, rfl, rfl⟩

/-! ## Combiner corruption tolerance (C9) and empty-source behaviour (C10) -/

theorem readRunFilesAux_spec (files : List (String × FileContent)) :
    (readRunFilesAux files).1 = files.filterMap (fun f =>
      match f.2 with
      | FileContent.jsonText j => decodeStoredRunResult j
      | FileContent.unparsable => none)
    ∧ (readRunFilesAux files).2 = (files.filter fun f =>
      match f.2 with
      | FileContent.jsonText j => (decodeStoredRunResult j).isNone
      | FileContent.unparsable => true).length := by
  induction files with
  | nil => exact ⟨rfl, rfl⟩
  | cons f rest ih =>
    rcases f with ⟨name, c⟩
    cases c with
    | jsonText j =>
      cases hd : decodeStoredRunResult j with
      | some r =>
        simp [readRunFilesAux, hd, List.filterMap_cons, List.filter_cons, ih.1, ih.2]
      | none =>
        simp [readRunFilesAux, hd, List.filterMap_cons, List.filter_cons, ih.1, ih.2]
    | unparsable =>
      simp [readRunFilesAux, List.filterMap_cons, List.filter_cons, ih.1, ih.2]

/-- A run file that is valid for the strict schema. -/
def vjC9 (succ : Bool) : Json :=
  .obj [("testName", .str "test-1"), ("modelName", .str "model-a"),
    ("runIndex", .num 0), ("timestamp", .str "ts"), ("type", .str "text"),
    ("prompt", .str "p"), ("success", .bool succ), ("reason", .str "r"),
    ("durationMs", .num 100),
    ("tokenUsage", .obj [("input", .num 4), ("output", .num 3), ("total", .num 10)])]

/-- Five valid run files and one unparsable one. -/
def filesC9 : List (String × FileContent) :=
  [("r1.json", .jsonText (vjC9 true)), ("r2.json", .jsonText (vjC9 true)),
   ("r3.json", .jsonText (vjC9 true)), ("r4.json", .jsonText (vjC9 false)),
   ("r5.json", .jsonText (vjC9 false)), ("corrupt.json", .unparsable)]

set_option maxRecDepth 40000 in
/-- C9: `readRunFiles` skips exactly the files that fail parsing or schema
validation, warning once per bad file, and returns exactly the valid ones in
order; combining a model directory with five valid files and one unparsable one
yields a summary over exactly the five valid results (3 successes, 2 failures
out of 5 runs) with exactly one warning logged. -/
theorem claim_c9_corruption_tolerance :
    (∀ files : List (String × FileContent),
      (readRunFiles files).1 =
        ((files.filter fun f => strEndsWith f.1 ".json").filterMap fun f =>
          match f.2 with
          | FileContent.jsonText j => decodeStoredRunResult j
          | FileContent.unparsable => none)
      ∧ (readRunFiles files).2 =
        (((files.filter fun f => strEndsWith f.1 ".json").filter fun f =>
          match f.2 with
          | FileContent.jsonText j => (decodeStoredRunResult j).isNone
          | FileContent.unparsable => true)).length)
    ∧ (combineRunDir (some [RunDirEntry.subdir "model-a" filesC9]) "bench" "ts0"
        none "now0").1.totalRuns = 5
    ∧ (combineRunDir (some [RunDirEntry.subdir "model-a" filesC9]) "bench" "ts0"
        none "now0").1.totalModels = 1
    ∧ (combineRunDir (some [RunDirEntry.subdir "model-a" filesC9]) "bench" "ts0"
        none "now0").2.1 = 1
    ∧ ((combineModelRuns "model-a" filesC9).1.map fun ms => ms.totalRuns) = some 5
    ∧ ((combineModelRuns "model-a" filesC9).1.map fun ms => ms.successfulRuns) = some 3
    ∧ ((combineModelRuns "model-a" filesC9).1.map fun ms => ms.failedRuns) = some 2
    ∧ (combineModelRuns "model-a" filesC9).2 = 1 := by
  refine ⟨fun files => readRunFilesAux_spec _, ?_, ?_, ?_, ?_, ?_, ?_, ?_⟩
  · decide
  · decide
  · decide
  · decide
  · decide
  · decide
  · decide

theorem mapPlainFile_noSubdirs (files : List String) :
    (files.map RunDirEntry.plainFile).filterMap (fun e =>
      match e with
      | RunDirEntry.subdir n fs => some (n, fs)
      | RunDirEntry.plainFile _ => none) = [] := by
  induction files with
  | nil => rfl
  | cons a l ih => simpa using ih

theorem mapPlainRunsFile_noRunDirs (files : List String) :
    (files.map RunsDirEntry.plainFile).filterMap (fun e =>
      match e with
      | RunsDirEntry.runDir n es => some (n, es)
      | RunsDirEntry.plainFile _ => none) = [] := by
  induction files with
  | nil => rfl
  | cons a l ih => simpa using ih

/-- C10: `combineRunDir` on a missing run directory, or on one with no model
subdirectories, raises nothing, writes no summary file, and returns the
all-zero summary; `combineAllRuns` on a missing parent runs directory creates
the directory and returns the all-zero summary, and on one with no run
subdirectories returns the all-zero summary without creating anything — and the
all-zero summary has zero in every aggregate field with an empty model list. -/
theorem claim_c10_empty_sources :
    (∀ bn ts out now, combineRunDir none bn ts out now = (emptySummary now, 0, []))
    ∧ (∀ (files : List String) bn ts out now,
        combineRunDir (some (files.map RunDirEntry.plainFile)) bn ts out now
          = (emptySummary now, 0, []))
    ∧ (∀ out now fts, combineAllRuns none out now fts = (emptySummary now, 0, [], true))
    ∧ (∀ (files : List String) out now fts,
        combineAllRuns (some (files.map RunsDirEntry.plainFile)) out now fts
          = (emptySummary now, 0, [], false))
    ∧ (∀ now, (emptySummary now).totalModels = 0 ∧ (emptySummary now).totalTests = 0
        ∧ (emptySummary now).totalRuns = 0 ∧ (emptySummary now).overallSuccessRate = 0
        ∧ (emptySummary now).totalDurationMs = 0 ∧ (emptySummary now).totalTokens = 0
        ∧ (emptySummary now).modelSummaries = []) := by
  refine ⟨fun bn ts out now => rfl, ?_, fun out now fts => rfl, ?_, ?_⟩
  · intro files bn ts out now
    simp [combineRunDir, mapPlainFile_noSubdirs]
  · intro files out now fts
    simp only [combineAllRuns]
    rw [mapPlainRunsFile_noRunDirs files]
    rfl
  · intro now
    exact ⟨rfl, rfl, rfl, rfl, rfl, rfl, rfl⟩
